import Mathlib

/-!
# Verification of the mojofs single-node storage-engine core

A shallow embedding, in Lean 4, of the parts of the `mojofs` Python
repository that the specification's claims are about:

* the msgpack byte-level encoding subset used by `filemeta` (encoders and
  parsers over `List Nat` byte strings),
* the quorum error reducer (`mojofs/ecstore/disk/error_reduce.py`),
* the bitrot codec sizing and writer state machine
  (`mojofs/ecstore/erasure_coding/bitrot.py`),
* the `FileMeta` container: version headers, canonical sort order,
  marshalling/unmarshalling, version addition, cross-replica merge and
  `get_file_info` (`mojofs/filemeta/filemeta.py`,
  `mojofs/filemeta/filemeta_inline.py`).

Bytes are modelled as `Nat` values (the encoders only emit values `< 256`);
byte strings are `List Nat`.  Python `None` becomes `Option.none`, raised
exceptions become `Except.error`, and mutation becomes explicit state
passing.  Functions keep the names of the Python functions they embed.
-/

namespace Mojofs

/-! ## Byte-string primitives -/

/-- Big-endian encoding of `n` into exactly `k` bytes (the semantics of
`struct.pack('>I', n)` and of `uuid.UUID.bytes`). -/
def natToBE (k : Nat) (n : Nat) : List Nat :=
  match k with
  | 0 => []
  | k + 1 => natToBE k (n / 256) ++ [n % 256]

/-- Big-endian decoding of a byte string (the semantics of
`int.from_bytes(b, 'big')`, which is how `uuid.UUID(bytes=...)` reads its
argument). -/
def beToNat (b : List Nat) : Nat :=
  b.foldl (fun acc x => acc * 256 + x) 0

/-- Little-endian 16-bit decoding: `struct.unpack('<H', ..)`. -/
def le16 (lo hi : Nat) : Nat := lo + 256 * hi

/-! ## msgpack encoding (the subset produced by `msgpack.packb` on the
values this code base serializes: unsigned ints, byte strings, text
strings, arrays and maps, with `use_bin_type=True`). -/

/-- msgpack encoding of a non-negative integer (positive fixint, uint8,
uint16, uint32, uint64).  `msgpack.packb` raises beyond `2^64 - 1`; the
claims' hypotheses stay inside that range. -/
def packNat (n : Nat) : List Nat :=
  if n < 0x80 then [n]
  else if n < 0x100 then [0xcc, n]
  else if n < 0x10000 then 0xcd :: natToBE 2 n
  else if n < 0x100000000 then 0xce :: natToBE 4 n
  else 0xcf :: natToBE 8 n

/-- msgpack encoding of a byte string (bin8/bin16/bin32). -/
def packBin (b : List Nat) : List Nat :=
  if b.length < 0x100 then 0xc4 :: b.length :: b
  else if b.length < 0x10000 then 0xc5 :: natToBE 2 b.length ++ b
  else 0xc6 :: natToBE 4 b.length ++ b

/-- msgpack encoding of a text string, given as its UTF-8 bytes
(fixstr/str8/str16/str32). -/
def packStrB (s : List Nat) : List Nat :=
  if s.length < 32 then (0xa0 + s.length) :: s
  else if s.length < 0x100 then 0xd9 :: s.length :: s
  else if s.length < 0x10000 then 0xda :: natToBE 2 s.length ++ s
  else 0xdb :: natToBE 4 s.length ++ s

/-- msgpack map header for a map of `n` entries. -/
def packMapHdr (n : Nat) : List Nat :=
  if n < 16 then [0x80 + n]
  else if n < 0x10000 then 0xde :: natToBE 2 n
  else 0xdf :: natToBE 4 n

/-- msgpack array header for an array of `n` items. -/
def packArrayHdr (n : Nat) : List Nat :=
  if n < 16 then [0x90 + n]
  else if n < 0x10000 then 0xdc :: natToBE 2 n
  else 0xdd :: natToBE 4 n

/-- Parse one msgpack unsigned integer from the head of `buf`; returns the
value and the remaining bytes. -/
def parseNat (buf : List Nat) : Option (Nat × List Nat) :=
  match buf with
  | [] => none
  | b :: rest =>
    if b < 0x80 then some (b, rest)
    else if b = 0xcc then
      match rest with
      | v :: r => some (v, r)
      | [] => none
    else if b = 0xcd then
      if 2 ≤ rest.length then some (beToNat (rest.take 2), rest.drop 2) else none
    else if b = 0xce then
      if 4 ≤ rest.length then some (beToNat (rest.take 4), rest.drop 4) else none
    else if b = 0xcf then
      if 8 ≤ rest.length then some (beToNat (rest.take 8), rest.drop 8) else none
    else none

/-- Parse one msgpack byte string (bin8/16/32) or text string
(fixstr/str8/16/32) from the head of `buf`, returning the raw bytes.  This
is what `msgpack.Unpacker(raw=True).unpack()` yields for either family. -/
def parseBytesRaw (buf : List Nat) : Option (List Nat × List Nat) :=
  match buf with
  | [] => none
  | b :: rest =>
    if 0xa0 ≤ b ∧ b ≤ 0xbf then
      let n := b - 0xa0
      if n ≤ rest.length then some (rest.take n, rest.drop n) else none
    else if b = 0xc4 ∨ b = 0xd9 then
      match rest with
      | n :: r => if n ≤ r.length then some (r.take n, r.drop n) else none
      | [] => none
    else if b = 0xc5 ∨ b = 0xda then
      if 2 ≤ rest.length then
        let n := beToNat (rest.take 2)
        let r := rest.drop 2
        if n ≤ r.length then some (r.take n, r.drop n) else none
      else none
    else if b = 0xc6 ∨ b = 0xdb then
      if 4 ≤ rest.length then
        let n := beToNat (rest.take 4)
        let r := rest.drop 4
        if n ≤ r.length then some (r.take n, r.drop n) else none
      else none
    else none

/-- UTF-8 bytes of an ASCII string literal (all strings serialized by this
code base are ASCII). -/
def strB (s : String) : List Nat := s.toList.map Char.toNat

/-! ## Quorum error reducer (`mojofs/ecstore/disk/error_reduce.py`)

`DiskError.__eq__` compares errors by `kind` alone, except that two `Io`
errors additionally compare their `detail` strings.  The inductive below is
exactly that quotient, so Lean's structural equality coincides with the
Python equality the reducer observes. -/

inductive DiskErr where
  | maxVersionsExceeded
  | unexpected
  | corruptedFormat
  | corruptedBackend
  | unformattedDisk
  | inconsistentDisk
  | unsupportedDisk
  | diskFull
  | diskNotDir
  | diskNotFound
  | diskOngoingReq
  | driveIsRoot
  | faultyRemoteDisk
  | faultyDisk
  | diskAccessDenied
  | fileNotFound
  | fileVersionNotFound
  | tooManyOpenFiles
  | fileNameTooLong
  | volumeExists
  | isNotRegular
  | pathNotFound
  | volumeNotFound
  | volumeNotEmpty
  | volumeAccessDenied
  | fileAccessDenied
  | fileCorrupt
  | bitrotHashAlgoInvalid
  | crossDeviceLink
  | lessData
  | moreData
  | outdatedXLMeta
  | partMissingOrCorrupt
  | noHealRequired
  | methodNotAllowed
  | ioError (detail : String)
  | erasureWriteQuorum
  | erasureReadQuorum
  | shortWrite
deriving DecidableEq, Repr

/-- Source `is_ignored_err`: membership in the ignored list, by `DiskError.__eq__`. -/
def is_ignored_err (ignored_errs : List DiskErr) (err : DiskErr) : Bool :=
  ignored_errs.any (fun e => e = err)

/-- The largest multiplicity of any element of `l` (`Counter(l).most_common`
count of the winner); `0` for the empty list. -/
def maxMult (l : List DiskErr) : Nat :=
  (l.map (fun e => l.count e)).foldr max 0

/-- Source `reduce_errs`: count `None` slots, histogram the non-ignored errors,
return the winning count and error, preferring `None` on ties.
`Counter.most_common` breaks count ties by first insertion, i.e. by first
occurrence in the filtered list, which is what `find?` returns. -/
def reduce_errs (errors : List (Option DiskErr)) (ignored_errs : List DiskErr) :
    Nat × Option DiskErr :=
  let nil_count := errors.countP (fun e => e.isNone)
  let filtered := (errors.filterMap id).filter (fun e => ¬ is_ignored_err ignored_errs e)
  let best_count := maxMult filtered
  let best_err := filtered.find? (fun e => filtered.count e = best_count)
  if nil_count > best_count ∨ (nil_count = best_count ∧ nil_count > 0) then
    (nil_count, none)
  else
    (best_count, best_err)

/-- Source `reduce_quorum_errs`: compare the winning count against the quorum. -/
def reduce_quorum_errs (errors : List (Option DiskErr)) (ignored_errs : List DiskErr)
    (quorum : Nat) (quorum_err : DiskErr) : Option DiskErr :=
  let r := reduce_errs errors ignored_errs
  if r.1 ≥ quorum then r.2 else some quorum_err

/-- Source `reduce_write_quorum_errs`. -/
def reduce_write_quorum_errs (errors : List (Option DiskErr)) (ignored_errs : List DiskErr)
    (quorum : Nat) : Option DiskErr :=
  reduce_quorum_errs errors ignored_errs quorum DiskErr.erasureWriteQuorum

/-! ## Bitrot codec (`mojofs/ecstore/erasure_coding/bitrot.py`) -/

/-- Source `HashAlgorithm` from `mojofs/utils/hash.py`. -/
inductive HashAlgorithm where
  | SHA256
  | HighwayHash256
  | HighwayHash256S
  | BLAKE2b512
  | Md5
  | NONE
deriving DecidableEq, Repr

/-- Source `HashAlgorithm.size`: the hash output width in bytes. -/
def HashAlgorithm.size : HashAlgorithm → Nat
  | .Md5 => 16
  | .SHA256 => 32
  | .HighwayHash256 => 32
  | .HighwayHash256S => 32
  | .BLAKE2b512 => 32
  | .NONE => 0

/-- Source `bitrot_shard_file_size`.  The Python guard is `algo != SHA256`, so the
ceiling formula is applied for `SHA256` only and every other algorithm
returns `size` unchanged.  (`shard_size = 0` would make Python raise
`ZeroDivisionError`; the claims keep `shard_size > 0`.) -/
def bitrot_shard_file_size (size : Nat) (shard_size : Nat) (algo : HashAlgorithm) : Nat :=
  if algo ≠ HashAlgorithm.SHA256 then size
  else (size + shard_size - 1) / shard_size * (algo.size + shard_size)

/-- Bitrot writer errors (the `ValueError` messages of `BitrotWriter.write`). -/
inductive BitrotWriteErr where
  /-- the `bitrot writer already finished` error -/
  | writerAlreadyFinished
  /-- the data-size-exceeds-shard-size error -/
  | dataExceedsShardSize
deriving DecidableEq, Repr

/-- Source `BitrotWriter` state: the accumulated inner-writer bytes, the shard
block size, the hash algorithm, and the finished flag. -/
structure BitrotWriter where
  inner : List Nat
  shard_size : Nat
  hash_algo : HashAlgorithm
  finished : Bool
deriving DecidableEq, Repr

/-- Source `BitrotWriter.write`.  `hash_encode` stands for
`self.hash_algo.hash_encode` (an external hash primitive: SHA-256 etc.);
the claims hold for every such function.  Returns the number of data bytes
written and the successor state. -/
def BitrotWriter.write (hash_encode : List Nat → List Nat) (w : BitrotWriter)
    (buf : List Nat) : Except BitrotWriteErr (Nat × BitrotWriter) :=
  if buf = [] then .ok (0, w)
  else if w.finished then .error .writerAlreadyFinished
  else if buf.length > w.shard_size then .error .dataExceedsShardSize
  else
    let w := if buf.length < w.shard_size then { w with finished := true } else w
    let hashed := if w.hash_algo.size > 0 then hash_encode buf else []
    .ok (buf.length, { w with inner := w.inner ++ hashed ++ buf })

/-! ## `FileMeta` data model (`mojofs/filemeta/filemeta.py`)

Conventions of the embedding:

* UUIDs are modelled by their 128-bit integer value (`uuid.UUID.int`);
  `Option Nat` where Python allows `None`.  The all-zero UUID is the
  `None` sentinel on the wire, exactly as in the source.
* Timestamps (`datetime`) are modelled by their non-negative nanosecond
  value `int(dt.timestamp() * 1e9)`, which is the only way the code ever
  serializes or compares them; `0` is the `None` sentinel on the wire.
* Text strings are modelled by their UTF-8 bytes (`List Nat`); Python
  `dict`s by insertion-ordered association lists, which is how
  `msgpack.packb` serializes them.
-/

/-- Error kinds raised by the filemeta layer; each constructor corresponds
to one `raise Error(...)` message in the source (noted in comments). -/
inductive MErr where
  /-- the `xl file header not exists` error -/
  | xlFileHeaderNotExists
  /-- the `xl file header err` error -/
  | xlFileHeaderErr
  /-- the `xl file version err` error -/
  | xlFileVersionErr
  /-- the `insufficient data for size` error -/
  | insufficientDataForSize
  /-- the `insufficient data for metadata` error -/
  | insufficientDataForMetadata
  /-- the `insufficient data for CRC` error -/
  | insufficientDataForCRC
  /-- the `version header array len err` error -/
  | versionHeaderArrayLenErr
  /-- the `xl header version invalid` error -/
  | xlHeaderVersionInvalid
  /-- the `xl meta version invalid` error -/
  | xlMetaVersionInvalid
  /-- the `InlineData` validation errors -/
  | inlineDataInvalid
  /-- the `file meta version invalid` error -/
  | fileMetaVersionInvalid
  /-- the `attempted to add invalid version` error -/
  | addInvalidVersion
  /-- maximum-versions limit: `You have exceeded the limit on the number of
  versions you can create on this object` -/
  | maxVersionsExceeded
  /-- the `FileNotFound` error -/
  | fileNotFound
  /-- the `FileVersionNotFound` error -/
  | fileVersionNotFound
  /-- the `MethodNotAllowed` error -/
  | methodNotAllowed
  /-- the `invalid file meta version` error -/
  | invalidFileMetaVersion
  /-- an unhandled exception escaping `msgpack` / `uuid` / enum conversion
  (`TypeError`, `ValueError`, `UnpackException`, ...) -/
  | unpackErr
deriving DecidableEq, Repr

/-- Source `VersionType` (`IntEnum`). -/
inductive VersionType where
  | invalid
  | object
  | delete
  | legacy
deriving DecidableEq, Repr

/-- Source `VersionType.to_u8`: the `IntEnum` value. -/
def VersionType.to_u8 : VersionType → Nat
  | .invalid => 0
  | .object => 1
  | .delete => 2
  | .legacy => 3

/-- Source `VersionType.from_u8` (unknown values map to `Invalid`). -/
def VersionType.from_u8 (n : Nat) : VersionType :=
  if n = 0 then .invalid
  else if n = 1 then .object
  else if n = 2 then .delete
  else if n = 3 then .legacy
  else .invalid

/-- Source `VersionType.valid`. -/
def VersionType.valid : VersionType → Bool
  | .object => true
  | .delete => true
  | .legacy => true
  | .invalid => false

/-- Source `ChecksumAlgo` (`IntEnum`): `Invalid = 0`, `HighwayHash = 1`. -/
inductive ChecksumAlgo where
  | invalid
  | highwayHash
deriving DecidableEq, Repr

/-- Source `ChecksumAlgo.valid`: `self > Invalid`. -/
def ChecksumAlgo.valid : ChecksumAlgo → Bool
  | .invalid => false
  | .highwayHash => true

/-- Source `ChecksumAlgo` enum value, as serialized. -/
def ChecksumAlgo.to_u8 : ChecksumAlgo → Nat
  | .invalid => 0
  | .highwayHash => 1

/-- Source `ErasureAlgo` (`IntEnum`): `Invalid = 0`, `ReedSolomon = 1`. -/
inductive ErasureAlgoT where
  | invalid
  | reedSolomon
deriving DecidableEq, Repr

/-- Source `ErasureAlgo.valid`: `self > Invalid`. -/
def ErasureAlgoT.valid : ErasureAlgoT → Bool
  | .invalid => false
  | .reedSolomon => true

/-- Source `ErasureAlgo` enum value, as serialized. -/
def ErasureAlgoT.to_u8 : ErasureAlgoT → Nat
  | .invalid => 0
  | .reedSolomon => 1

/-- Flag bits (`Flags` / `XL_FLAG_*`). -/
def flagFreeVersion : Nat := 1
/-- Source `Flags.UsesDataDir`. -/
def flagUsesDataDir : Nat := 2
/-- Source `Flags.InlineData`. -/
def flagInlineData : Nat := 4

/-- Source `FileMetaVersionHeader`. -/
structure FileMetaVersionHeader where
  version_id : Option Nat := none
  mod_time : Option Nat := none
  signature : List Nat := [0, 0, 0, 0]
  version_type : VersionType := .invalid
  flags : Nat := 0
  ec_n : Nat := 0
  ec_m : Nat := 0
deriving DecidableEq, Repr

namespace FileMetaVersionHeader

/-- Source `has_ec`. -/
def has_ec (h : FileMetaVersionHeader) : Bool := h.ec_m > 0 ∧ h.ec_n > 0

/-- Source `matches_ec`. -/
def matches_ec (h other : FileMetaVersionHeader) : Bool :=
  if h.has_ec ∧ other.has_ec then h.ec_n = other.ec_n ∧ h.ec_m = other.ec_m
  else true

/-- Source `matches_not_strict`. -/
def matches_not_strict (h other : FileMetaVersionHeader) : Bool :=
  let ok := h.version_id = other.version_id ∧ h.version_type = other.version_type ∧
    h.matches_ec other
  if h.version_id = none then ok ∧ h.mod_time = other.mod_time else ok

/-- Source `free_version`: test of the `FreeVersion` flag bit. -/
def free_version (h : FileMetaVersionHeader) : Bool :=
  h.flags % 2 = 1

/-- Source `user_data_dir`: test of the `UsesDataDir` flag bit. -/
def user_data_dir (h : FileMetaVersionHeader) : Bool :=
  h.flags / 2 % 2 = 1

/-- Source `inline_data`: test of the `InlineData` flag bit. -/
def inline_data (h : FileMetaVersionHeader) : Bool :=
  h.flags / 4 % 2 = 1

/-- Source `sorts_before`: the canonical strict order on version headers — newest
`mod_time` first, then lower `version_type`, then larger `version_id`, then
larger `flags`; a `None` `mod_time` or `version_id` sorts after any
non-`None` one.  The Python tie-break compares `str(uuid)`; for two
UUIDs those hex strings have equal length and dashes at the same
positions, so string order coincides with numeric order of the 128-bit
values, which is what the model compares. -/
def sorts_before (h other : FileMetaVersionHeader) : Bool :=
  if h = other then false
  else if h.mod_time ≠ other.mod_time then
    match h.mod_time, other.mod_time with
    | none, _ => false
    | some _, none => true
    | some a, some b => a > b
  else if h.version_type ≠ other.version_type then
    h.version_type.to_u8 < other.version_type.to_u8
  else if h.version_id ≠ other.version_id then
    match h.version_id, other.version_id with
    | none, _ => false
    | some _, none => true
    | some a, some b => a > b
  else if h.flags ≠ other.flags then h.flags > other.flags
  else false

/-- Source `FileMetaVersionHeader.marshal_msg`: a 7-slot record — array length
marker, UUID bytes, nanosecond mod-time, signature, type tag, flags and
the erasure pair, each msgpack-packed in sequence. -/
def marshal_msg (h : FileMetaVersionHeader) : List Nat :=
  packNat 7 ++
  packBin (natToBE 16 (h.version_id.getD 0)) ++
  packNat (h.mod_time.getD 0) ++
  packBin h.signature ++
  packNat h.version_type.to_u8 ++
  packNat h.flags ++
  packNat h.ec_n ++
  packNat h.ec_m

/-- Source `FileMetaVersionHeader.unmarshal_msg`: parse the 7 slots back; the
all-zero UUID and the zero timestamp decode to `None`.  Trailing bytes are
ignored, as in the source (the unpacker reads exactly seven objects). -/
def unmarshal_msg (buf : List Nat) : Except MErr FileMetaVersionHeader := do
  let some (alen, buf) := parseNat buf | .error .unpackErr
  if alen ≠ 7 then .error .versionHeaderArrayLenErr
  else do
    let some (vid_bytes, buf) := parseBytesRaw buf | .error .unpackErr
    if vid_bytes.length ≠ 16 then .error .unpackErr
    else do
      let vid := beToNat vid_bytes
      let some (ts, buf) := parseNat buf | .error .unpackErr
      let some (sig, buf) := parseBytesRaw buf | .error .unpackErr
      let some (typ, buf) := parseNat buf | .error .unpackErr
      let some (flags, buf) := parseNat buf | .error .unpackErr
      let some (ec_n, buf) := parseNat buf | .error .unpackErr
      let some (ec_m, _buf) := parseNat buf | .error .unpackErr
      .ok { version_id := if vid = 0 then none else some vid
            mod_time := if ts = 0 then none else some ts
            signature := sig
            version_type := VersionType.from_u8 typ
            flags := flags
            ec_n := ec_n
            ec_m := ec_m }

end FileMetaVersionHeader

/-- Source `FileMetaShallowVersion`: a version header plus the still-serialized
version payload. -/
structure FileMetaShallowVersion where
  header : FileMetaVersionHeader := {}
  meta : List Nat := []
deriving DecidableEq, Repr

/-! ### FileInfo (`mojofs/filemeta/fileinfo.py`), restricted to the fields
the verified operations read or write. -/

/-- Source `ObjectPartInfo`. -/
structure ObjectPartInfo where
  etag : List Nat := []
  number : Nat := 0
  size : Nat := 0
  actual_size : Nat := 0
  index : Option (List Nat) := none
deriving DecidableEq, Repr

/-- Source `ErasureInfo`. -/
structure ErasureInfo where
  algorithm : List Nat := []
  data_blocks : Nat := 0
  parity_blocks : Nat := 0
  block_size : Nat := 0
  index : Nat := 0
  distribution : List Nat := []
deriving DecidableEq, Repr

/-- Source `FileInfo`. -/
structure FileInfo where
  volume : List Nat := []
  name : List Nat := []
  version_id : Option Nat := none
  is_latest : Bool := false
  deleted : Bool := false
  data_dir : Option Nat := none
  mod_time : Option Nat := none
  size : Nat := 0
  metadata : List (List Nat × List Nat) := []
  parts : List ObjectPartInfo := []
  erasure : ErasureInfo := {}
  data : Option (List Nat) := none
  num_versions : Nat := 0
  successor_mod_time : Option Nat := none
deriving DecidableEq, Repr

/-- Source `FileInfo.is_valid`. -/
def FileInfo.is_valid (fi : FileInfo) : Bool :=
  if fi.deleted then true
  else
    let data_blocks := fi.erasure.data_blocks
    let parity_blocks := fi.erasure.parity_blocks
    data_blocks ≥ parity_blocks ∧ data_blocks > 0 ∧ fi.erasure.index > 0 ∧
      fi.erasure.index ≤ data_blocks + parity_blocks ∧
      fi.erasure.distribution.length = data_blocks + parity_blocks

/-- the reserved metadata key marker from `filemeta.py` (`X-Minio-Internal-`). -/
def reservedMetadataPfx : List Nat := strB "X-Minio-Internal-"
/-- the lower-case reserved metadata key marker (`x-minio-internal-`). -/
def reservedMetadataPfxLower : List Nat := strB "x-minio-internal-"
/-- The key `x-minio-internal-inline-data` tested by `MetaObject.inlinedata`. -/
def inlineDataKey : List Nat := strB "x-minio-internal-inline-data"
/-- Source `FREE_VERSION_META_HEADER` (`free-version`). -/
def freeVersionMetaHeader : List Nat := strB "free-version"

/-! ### MetaObject / MetaDeleteMarker / FileMetaVersion -/

/-- Source `MetaObject`. -/
structure MetaObject where
  version_id : Option Nat := none
  data_dir : Option Nat := none
  erasure_algorithm : ErasureAlgoT := .reedSolomon
  erasure_m : Nat := 0
  erasure_n : Nat := 0
  erasure_block_size : Nat := 0
  erasure_index : Nat := 0
  erasure_dist : List Nat := []
  bitrot_checksum_algo : ChecksumAlgo := .highwayHash
  part_numbers : List Nat := []
  part_etags : List (List Nat) := []
  part_sizes : List Nat := []
  part_actual_sizes : List Nat := []
  part_indices : List (List Nat) := []
  size : Nat := 0
  mod_time : Option Nat := none
  meta_sys : List (List Nat × List Nat) := []
  meta_user : List (List Nat × List Nat) := []
deriving DecidableEq, Repr

namespace MetaObject

/-- Source `MetaObject.inlinedata`: reserved inline-data key present in `meta_sys`. -/
def inlinedata (o : MetaObject) : Bool :=
  o.meta_sys.any (fun kv => kv.1 = inlineDataKey)

/-- Source `MetaObject.uses_data_dir`. -/
def uses_data_dir (o : MetaObject) : Bool := ¬ o.inlinedata

/-- Source `MetaObject.marshal_msg`: `msgpack.packb` of the 18-key field record in
its insertion order, with `use_bin_type=True`. -/
def marshal_msg (o : MetaObject) : List Nat :=
  packMapHdr 18 ++
  packStrB (strB "ID") ++ packBin (natToBE 16 (o.version_id.getD 0)) ++
  packStrB (strB "DDir") ++ packBin (natToBE 16 (o.data_dir.getD 0)) ++
  packStrB (strB "EcAlgo") ++ packNat o.erasure_algorithm.to_u8 ++
  packStrB (strB "EcM") ++ packNat o.erasure_m ++
  packStrB (strB "EcN") ++ packNat o.erasure_n ++
  packStrB (strB "EcBSize") ++ packNat o.erasure_block_size ++
  packStrB (strB "EcIndex") ++ packNat o.erasure_index ++
  packStrB (strB "EcDist") ++ packBin o.erasure_dist ++
  packStrB (strB "CSumAlgo") ++ packNat o.bitrot_checksum_algo.to_u8 ++
  packStrB (strB "PartNums") ++ packArrayHdr o.part_numbers.length ++
    (o.part_numbers.map packNat).flatten ++
  packStrB (strB "PartETags") ++ packArrayHdr o.part_etags.length ++
    (o.part_etags.map packStrB).flatten ++
  packStrB (strB "PartSizes") ++ packArrayHdr o.part_sizes.length ++
    (o.part_sizes.map packNat).flatten ++
  packStrB (strB "PartASizes") ++ packArrayHdr o.part_actual_sizes.length ++
    (o.part_actual_sizes.map packNat).flatten ++
  packStrB (strB "PartIdx") ++ packArrayHdr o.part_indices.length ++
    (o.part_indices.map packBin).flatten ++
  packStrB (strB "Size") ++ packNat o.size ++
  packStrB (strB "MTime") ++ packNat (o.mod_time.getD 0) ++
  packStrB (strB "MetaSys") ++ packMapHdr o.meta_sys.length ++
    (o.meta_sys.map (fun kv => packStrB kv.1 ++ packBin kv.2)).flatten ++
  packStrB (strB "MetaUsr") ++ packMapHdr o.meta_user.length ++
    (o.meta_user.map (fun kv => packStrB kv.1 ++ packStrB kv.2)).flatten

end MetaObject

/-- Source `MetaDeleteMarker`. -/
structure MetaDeleteMarker where
  version_id : Option Nat := none
  mod_time : Option Nat := none
  meta_sys : Option (List (List Nat × List Nat)) := none
deriving DecidableEq, Repr

namespace MetaDeleteMarker

/-- Truthiness of `self.meta_sys` (`None` and `{}` are falsy). -/
def meta_sys_truthy (d : MetaDeleteMarker) : Bool :=
  match d.meta_sys with
  | some l => l ≠ []
  | none => false

/-- Source `MetaDeleteMarker.free_version`: `FREE_VERSION_META_HEADER in meta_sys`
when `meta_sys` is truthy. -/
def free_version (d : MetaDeleteMarker) : Bool :=
  match d.meta_sys with
  | some l => l.any (fun kv => kv.1 = freeVersionMetaHeader)
  | none => false

/-- Source `MetaDeleteMarker.marshal_msg`: the `ID`/`MTime` record, plus `MetaSys`
when that dict is truthy. -/
def marshal_msg (d : MetaDeleteMarker) : List Nat :=
  packMapHdr (if d.meta_sys_truthy then 3 else 2) ++
  packStrB (strB "ID") ++ packBin (natToBE 16 (d.version_id.getD 0)) ++
  packStrB (strB "MTime") ++ packNat (d.mod_time.getD 0) ++
  (if d.meta_sys_truthy then
    packStrB (strB "MetaSys") ++ packMapHdr (d.meta_sys.getD []).length ++
      ((d.meta_sys.getD []).map (fun kv => packStrB kv.1 ++ packBin kv.2)).flatten
  else [])

end MetaDeleteMarker

/-- Source `FileMetaVersion`. -/
structure FileMetaVersion where
  version_type : VersionType := .invalid
  object : Option MetaObject := none
  delete_marker : Option MetaDeleteMarker := none
  write_version : Nat := 0
deriving DecidableEq, Repr

namespace FileMetaVersion

/-- Source `FileMetaVersion.valid`.  Note the source falls through to `False` for
`Legacy` versions even though `VersionType.Legacy.valid()` holds. -/
def valid (v : FileMetaVersion) : Bool :=
  if ¬ v.version_type.valid then false
  else match v.version_type, v.object, v.delete_marker with
  | .object, some o, _ =>
    o.erasure_algorithm.valid ∧ o.bitrot_checksum_algo.valid ∧ o.mod_time.isSome
  | .object, none, _ => false
  | .delete, _, some d => d.mod_time.isSome
  | .delete, _, none => false
  | _, _, _ => false

/-- Source `get_version_id`. -/
def get_version_id (v : FileMetaVersion) : Option Nat :=
  match v.version_type, v.object, v.delete_marker with
  | .object, some o, _ => o.version_id
  | .delete, _, some d => d.version_id
  | _, _, _ => none

/-- Source `get_mod_time`. -/
def get_mod_time (v : FileMetaVersion) : Option Nat :=
  match v.version_type, v.object, v.delete_marker with
  | .object, some o, _ => o.mod_time
  | .delete, _, some d => d.mod_time
  | _, _, _ => none

/-- Source `FileMetaVersion.free_version`. -/
def free_version (v : FileMetaVersion) : Bool :=
  v.version_type == .delete &&
    (match v.delete_marker with
     | some d => d.free_version
     | none => false)

/-- Source `FileMetaVersion.header`: derive the shallow header — flag bits from
the free-version / data-dir / inline-data predicates, the erasure pair from
the object payload, and an all-zero signature. -/
def header (v : FileMetaVersion) : FileMetaVersionHeader :=
  let flags :=
    (if v.free_version then flagFreeVersion else 0) |||
    (if v.version_type = .object ∧ (v.object.map MetaObject.uses_data_dir).getD false
      then flagUsesDataDir else 0) |||
    (if v.version_type = .object ∧ (v.object.map MetaObject.inlinedata).getD false
      then flagInlineData else 0)
  let ec : Nat × Nat :=
    match v.version_type, v.object with
    | .object, some o => (o.erasure_n, o.erasure_m)
    | _, _ => (0, 0)
  { version_id := v.get_version_id
    mod_time := v.get_mod_time
    signature := [0, 0, 0, 0]
    version_type := v.version_type
    flags := flags
    ec_n := ec.1
    ec_m := ec.2 }

/-- Source `FileMetaVersion.marshal_msg`: the `Type`/`v` record, with the nested
payload under `V2Obj` / `DelObj` when present.  The source round-trips the
nested payload through `unpackb`/`packb`, which re-encodes the identical
bytes (`msgpack.packb` is deterministic and minimal on its own output), so
the nested bytes are the payload's own `marshal_msg`. -/
def marshal_msg (v : FileMetaVersion) : List Nat :=
  let n := 2 + (if v.object.isSome then 1 else 0) + (if v.delete_marker.isSome then 1 else 0)
  packMapHdr n ++
  packStrB (strB "Type") ++ packNat v.version_type.to_u8 ++
  packStrB (strB "v") ++ packNat v.write_version ++
  (match v.object with
   | some o => packStrB (strB "V2Obj") ++ o.marshal_msg
   | none => []) ++
  (match v.delete_marker with
   | some d => packStrB (strB "DelObj") ++ d.marshal_msg
   | none => [])

/-- Source `FileMetaVersion.from_fileinfo`. -/
def from_fileinfo (fi : FileInfo) : FileMetaVersion :=
  if fi.deleted then
    { version_type := .delete
      delete_marker := some { version_id := fi.version_id, mod_time := fi.mod_time } }
  else
    let obj : MetaObject :=
      { version_id := fi.version_id
        data_dir := fi.data_dir
        size := fi.size
        mod_time := fi.mod_time
        erasure_algorithm := .reedSolomon
        erasure_m := fi.erasure.data_blocks
        erasure_n := fi.erasure.parity_blocks
        erasure_block_size := fi.erasure.block_size
        erasure_index := fi.erasure.index
        erasure_dist := fi.erasure.distribution
        bitrot_checksum_algo := .highwayHash
        part_numbers := if fi.parts ≠ [] then fi.parts.map (·.number) else []
        part_etags := if fi.parts ≠ [] then fi.parts.map (·.etag) else []
        part_sizes := if fi.parts ≠ [] then fi.parts.map (·.size) else []
        part_actual_sizes := if fi.parts ≠ [] then fi.parts.map (·.actual_size) else []
        part_indices := if fi.parts ≠ [] then fi.parts.map (fun p => p.index.getD []) else []
        meta_sys := fi.metadata.filter (fun kv =>
          reservedMetadataPfx.isPrefixOf kv.1 ∨ reservedMetadataPfxLower.isPrefixOf kv.1)
        meta_user := fi.metadata.filter (fun kv =>
          ¬ (reservedMetadataPfx.isPrefixOf kv.1 ∨ reservedMetadataPfxLower.isPrefixOf kv.1)) }
    { version_type := .object, object := some obj }

end FileMetaVersion

/-! ### msgpack value trees

`MetaObject.unmarshal_msg` and friends run `msgpack.unpackb` and then walk
the resulting Python object.  `MVal` is that object tree, covering the
msgpack families this code base's writers emit (unsigned ints, bin, str,
arrays, maps); markers outside the subset (nil, bools, floats, negative
ints, ext) make the parser fail, where Python would surface an object the
surrounding typed field extraction then chokes on. -/

inductive MVal where
  | num (n : Nat)
  | bin (b : List Nat)
  | str (s : List Nat)
  | arr (xs : List MVal)
  | map (kvs : List (MVal × MVal))

/-- Taking `n` bytes as a `bin`/`str` payload, guarded by a length check
(helper shared by the multi-byte-length cases above). -/
def bytesWith (n : Nat) (r : List Nat) (lenOk : Prop) [Decidable lenOk]
    (mk : List Nat → MVal) : Option (MVal × List Nat) :=
  if lenOk then
    if n ≤ r.length then some (mk (r.take n), r.drop n) else none
  else none

mutual

/-- Parse one msgpack object (fuel-bounded; each step consumes at least one
byte, so `buf.length + 1` fuel always suffices). -/
def parseMVal : Nat → List Nat → Option (MVal × List Nat)
  | 0, _ => none
  | fuel + 1, buf =>
    match buf with
    | [] => none
    | b :: rest =>
      if b < 0x80 then some (.num b, rest)
      else if b ≤ 0x8f then
        match parseMPairs fuel (b - 0x80) rest with
        | some (kvs, r) => some (.map kvs, r)
        | none => none
      else if b ≤ 0x9f then
        match parseMList fuel (b - 0x90) rest with
        | some (xs, r) => some (.arr xs, r)
        | none => none
      else if b ≤ 0xbf then
        let n := b - 0xa0
        if n ≤ rest.length then some (.str (rest.take n), rest.drop n) else none
      else if b = 0xc4 then
        match rest with
        | n :: r => if n ≤ r.length then some (.bin (r.take n), r.drop n) else none
        | [] => none
      else if b = 0xc5 then bytesWith (beToNat (rest.take 2)) (rest.drop 2) (2 ≤ rest.length) .bin
      else if b = 0xc6 then bytesWith (beToNat (rest.take 4)) (rest.drop 4) (4 ≤ rest.length) .bin
      else if b = 0xcc then
        match rest with
        | v :: r => some (.num v, r)
        | [] => none
      else if b = 0xcd then
        if 2 ≤ rest.length then some (.num (beToNat (rest.take 2)), rest.drop 2) else none
      else if b = 0xce then
        if 4 ≤ rest.length then some (.num (beToNat (rest.take 4)), rest.drop 4) else none
      else if b = 0xcf then
        if 8 ≤ rest.length then some (.num (beToNat (rest.take 8)), rest.drop 8) else none
      else if b = 0xd9 then
        match rest with
        | n :: r => if n ≤ r.length then some (.str (r.take n), r.drop n) else none
        | [] => none
      else if b = 0xda then bytesWith (beToNat (rest.take 2)) (rest.drop 2) (2 ≤ rest.length) .str
      else if b = 0xdb then bytesWith (beToNat (rest.take 4)) (rest.drop 4) (4 ≤ rest.length) .str
      else if b = 0xdc then
        if 2 ≤ rest.length then
          match parseMList fuel (beToNat (rest.take 2)) (rest.drop 2) with
          | some (xs, r) => some (.arr xs, r)
          | none => none
        else none
      else if b = 0xdd then
        if 4 ≤ rest.length then
          match parseMList fuel (beToNat (rest.take 4)) (rest.drop 4) with
          | some (xs, r) => some (.arr xs, r)
          | none => none
        else none
      else if b = 0xde then
        if 2 ≤ rest.length then
          match parseMPairs fuel (beToNat (rest.take 2)) (rest.drop 2) with
          | some (kvs, r) => some (.map kvs, r)
          | none => none
        else none
      else if b = 0xdf then
        if 4 ≤ rest.length then
          match parseMPairs fuel (beToNat (rest.take 4)) (rest.drop 4) with
          | some (kvs, r) => some (.map kvs, r)
          | none => none
        else none
      else none

/-- Parse `n` consecutive msgpack objects (array items). -/
def parseMList : Nat → Nat → List Nat → Option (List MVal × List Nat)
  | 0, _, _ => none
  | _ + 1, 0, buf => some ([], buf)
  | fuel + 1, n + 1, buf =>
    match parseMVal fuel buf with
    | some (v, buf) =>
      match parseMList fuel n buf with
      | some (vs, r) => some (v :: vs, r)
      | none => none
    | none => none

/-- Parse `n` consecutive key/value pairs (map entries). -/
def parseMPairs : Nat → Nat → List Nat → Option (List (MVal × MVal) × List Nat)
  | 0, _, _ => none
  | _ + 1, 0, buf => some ([], buf)
  | fuel + 1, n + 1, buf =>
    match parseMVal fuel buf with
    | some (k, buf) =>
      match parseMVal fuel buf with
      | some (v, buf) =>
        match parseMPairs fuel n buf with
        | some (kvs, r) => some ((k, v) :: kvs, r)
        | none => none
      | none => none
    | none => none

end

mutual

/-- Python `msgpack.packb` of an `MVal` (deterministic minimal encoding with
`use_bin_type=True`): what re-packing an unpacked object produces. -/
def mvEncode : MVal → List Nat
  | .num n => packNat n
  | .bin b => packBin b
  | .str s => packStrB s
  | .arr xs => packArrayHdr xs.length ++ mvEncodeList xs
  | .map kvs => packMapHdr kvs.length ++ mvEncodePairs kvs

/-- Encode array items in sequence. -/
def mvEncodeList : List MVal → List Nat
  | [] => []
  | v :: vs => mvEncode v ++ mvEncodeList vs

/-- Encode map entries in sequence. -/
def mvEncodePairs : List (MVal × MVal) → List Nat
  | [] => []
  | (k, v) :: kvs => mvEncode k ++ mvEncode v ++ mvEncodePairs kvs

end

/-- Python truthiness of an unpacked msgpack object. -/
def mvTruthy : MVal → Bool
  | .num n => n ≠ 0
  | .bin b => b ≠ []
  | .str s => s ≠ []
  | .arr xs => !xs.isEmpty
  | .map kvs => !kvs.isEmpty

/-- Does this object equal the string key `key`? -/
def isStrKey (v : MVal) (key : List Nat) : Bool :=
  match v with
  | .str s => s = key
  | _ => false

/-- Python `dict.get(key)` on the dict `msgpack.unpackb` builds from `kvs`:
duplicate keys overwrite, so the last occurrence wins. -/
def mgetLast (kvs : List (MVal × MVal)) (key : List Nat) : Option MVal :=
  ((kvs.filter (fun kv => isStrKey kv.1 key)).getLast?).map (·.2)

/-! ### Inline data (`mojofs/filemeta/filemeta_inline.py`)

`InlineData` wraps a raw byte buffer: one version byte followed by a
msgpack map from version-id strings to raw bytes.  The parser below reads
that writer grammar (string keys, bin values); on anything else the
operations take their failure / fresh-dict paths, as the source does for
unparsable buffers. -/

/-- Decoded inline map: string key bytes to payload bytes. -/
def parseInlineMap (buf : List Nat) : Option (List (List Nat × List Nat)) :=
  match parseMVal (buf.length + 1) buf with
  | some (.map kvs, _) =>
    kvs.mapM (fun kv =>
      match kv with
      | (.str k, .bin v) => some (k, v)
      | _ => none)
  | _ => none

namespace InlineData

/-- Source `InlineData.after_version`: everything past the version byte. -/
def after_version (d : List Nat) : List Nat :=
  if d = [] then d else d.tail

/-- Source `InlineData.version_ok`. -/
def version_ok (d : List Nat) : Bool :=
  if d = [] then true else 0 < d.headD 0 ∧ d.headD 0 ≤ 1

/-- Source `InlineData.validate` as a predicate: empty is fine; otherwise the
payload must parse as a map whose keys are all non-empty.  (The source
raises `Error`; callers convert `false` into that error.) -/
def validate (d : List Nat) : Bool :=
  if d = [] then true
  else match parseInlineMap (after_version d) with
    | some kvs => kvs.all (fun kv => kv.1 ≠ [])
    | none => false

/-- Source `InlineData.serialize_dict`: empty map clears the buffer, otherwise the
version byte followed by the packed map. -/
def serialize_dict (pairs : List (List Nat × List Nat)) : List Nat :=
  if pairs = [] then []
  else 1 :: (packMapHdr pairs.length ++
    (pairs.map (fun kv => packStrB kv.1 ++ packBin kv.2)).flatten)

/-- Python `data[key] = value` on an insertion-ordered dict: overwrite in place or
append. -/
def assocSet (pairs : List (List Nat × List Nat)) (key value : List Nat) :
    List (List Nat × List Nat) :=
  if pairs.any (fun kv => kv.1 = key) then
    pairs.map (fun kv => if kv.1 = key then (key, value) else kv)
  else pairs ++ [(key, value)]

/-- Source `InlineData.replace`: parse the existing map (or start fresh when empty
or unparsable), set the key, re-serialize. -/
def replace (d : List Nat) (key value : List Nat) : List Nat :=
  if after_version d = [] then serialize_dict [(key, value)]
  else match parseInlineMap (after_version d) with
    | some kvs => serialize_dict (assocSet kvs key value)
    | none => serialize_dict [(key, value)]

/-- Source `InlineData.find`: `dict.get(key)` on the decoded map (last duplicate
wins), `None` for empty or version-invalid buffers. -/
def find (d : List Nat) (key : List Nat) : Option (List Nat) :=
  if d = [] ∨ ¬ version_ok d then none
  else match parseInlineMap (after_version d) with
    | some kvs => ((kvs.filter (fun kv => kv.1 = key)).getLast?).map (·.2)
    | none => none

end InlineData

/-- Lower-case hex digit of a nibble, as a byte. -/
def hexDigit (n : Nat) : Nat := if n < 10 then 48 + n else 87 + n

/-- Exactly `k` lower-case hex digits of `n`, most significant first. -/
def hexDigits (k : Nat) (n : Nat) : List Nat :=
  match k with
  | 0 => []
  | k + 1 => hexDigits k (n / 16) ++ [hexDigit (n % 16)]

/-- Python `str(uuid.UUID(int=v))`: 32 hex digits in 8-4-4-4-12 groups separated
by dashes, as bytes. -/
def uuidStrB (v : Nat) : List Nat :=
  let h := hexDigits 32 v
  h.take 8 ++ [45] ++ (h.drop 8).take 4 ++ [45] ++ (h.drop 12).take 4 ++ [45] ++
    (h.drop 16).take 4 ++ [45] ++ h.drop 20

/-! ### Payload unmarshalling

Field extraction from the unpacked msgpack dict.  The Python assignments
are untyped; the model types each field the way every reader of it uses it
(the writers only ever produce those types), and surfaces `unpackErr` where
Python would raise inside `uuid.UUID`, `datetime.fromtimestamp`, or an
enum constructor. -/

/-- Python `data.get(key, dflt)` for an integer field. -/
def mGetNat (data : List (MVal × MVal)) (key : List Nat) (dflt : Nat) : Except MErr Nat :=
  match mgetLast data key with
  | none => .ok dflt
  | some (.num n) => .ok n
  | some _ => .error .unpackErr

/-- The `uuid.UUID(bytes=data.get(k, ..)) if data.get(k) else None` pattern
with the zero-UUID collapsed to `None`: falsy values give `None`, a 16-byte
string gives the integer value, anything else raises. -/
def mGetUUID (data : List (MVal × MVal)) (key : List Nat) : Except MErr (Option Nat) :=
  match mgetLast data key with
  | none => .ok none
  | some v =>
    if ¬ mvTruthy v then .ok none
    else match v with
      | .bin b =>
        if b.length = 16 then
          let n := beToNat b
          .ok (if n = 0 then none else some n)
        else .error .unpackErr
      | _ => .error .unpackErr

/-- The `if mtime and mtime != 0` timestamp pattern. -/
def mGetMTime (data : List (MVal × MVal)) : Except MErr (Option Nat) :=
  match mgetLast data (strB "MTime") with
  | none => .ok none
  | some (.num n) => .ok (if n = 0 then none else some n)
  | some _ => .error .unpackErr

/-- An array-of-integers field (`PartNums`, `PartSizes`, `PartASizes`). -/
def mGetNatList (data : List (MVal × MVal)) (key : List Nat) : Except MErr (List Nat) :=
  match mgetLast data key with
  | none => .ok []
  | some (.arr xs) =>
    match xs.mapM (fun x => match x with | .num n => some n | _ => none) with
    | some ns => .ok ns
    | none => .error .unpackErr
  | some _ => .error .unpackErr

/-- An array-of-strings field (`PartETags`). -/
def mGetStrList (data : List (MVal × MVal)) (key : List Nat) : Except MErr (List (List Nat)) :=
  match mgetLast data key with
  | none => .ok []
  | some (.arr xs) =>
    match xs.mapM (fun x => match x with | .str s => some s | _ => none) with
    | some ss => .ok ss
    | none => .error .unpackErr
  | some _ => .error .unpackErr

/-- An array-of-bytes field (`PartIdx`). -/
def mGetBinList (data : List (MVal × MVal)) (key : List Nat) : Except MErr (List (List Nat)) :=
  match mgetLast data key with
  | none => .ok []
  | some (.arr xs) =>
    match xs.mapM (fun x => match x with | .bin b => some b | _ => none) with
    | some bs => .ok bs
    | none => .error .unpackErr
  | some _ => .error .unpackErr

/-- Python `list(data.get('EcDist', []))`: the writer stores the distribution as a
byte string, and `list(bytes)` recovers the integers; an unpacked array
also survives `list()`. -/
def mGetDist (data : List (MVal × MVal)) : Except MErr (List Nat) :=
  match mgetLast data (strB "EcDist") with
  | none => .ok []
  | some (.bin b) => .ok b
  | some (.arr xs) =>
    match xs.mapM (fun x => match x with | .num n => some n | _ => none) with
    | some ns => .ok ns
    | none => .error .unpackErr
  | some _ => .error .unpackErr

/-- A string-to-bytes map field (`MetaSys`). -/
def mGetMapStrBin (data : List (MVal × MVal)) (key : List Nat) :
    Except MErr (List (List Nat × List Nat)) :=
  match mgetLast data key with
  | none => .ok []
  | some (.map kvs) =>
    match kvs.mapM (fun kv =>
      match kv with
      | (.str k, .bin v) => some (k, v)
      | _ => none) with
    | some ps => .ok ps
    | none => .error .unpackErr
  | some _ => .error .unpackErr

/-- A string-to-string map field (`MetaUsr`). -/
def mGetMapStrStr (data : List (MVal × MVal)) (key : List Nat) :
    Except MErr (List (List Nat × List Nat)) :=
  match mgetLast data key with
  | none => .ok []
  | some (.map kvs) =>
    match kvs.mapM (fun kv =>
      match kv with
      | (.str k, .str v) => some (k, v)
      | _ => none) with
    | some ps => .ok ps
    | none => .error .unpackErr
  | some _ => .error .unpackErr

/-- Source `MetaObject.unmarshal_msg`. -/
def MetaObject.unmarshal_msg (buf : List Nat) : Except MErr MetaObject := do
  let some (.map data, _) := parseMVal (buf.length + 1) buf | .error .unpackErr
  let version_id ← mGetUUID data (strB "ID")
  let data_dir ← mGetUUID data (strB "DDir")
  let ecAlgoN ← mGetNat data (strB "EcAlgo") 0
  let erasure_algorithm ←
    if ecAlgoN = 0 then pure ErasureAlgoT.invalid
    else if ecAlgoN = 1 then pure ErasureAlgoT.reedSolomon
    else .error .unpackErr
  let erasure_m ← mGetNat data (strB "EcM") 0
  let erasure_n ← mGetNat data (strB "EcN") 0
  let erasure_block_size ← mGetNat data (strB "EcBSize") 0
  let erasure_index ← mGetNat data (strB "EcIndex") 0
  let erasure_dist ← mGetDist data
  let csumN ← mGetNat data (strB "CSumAlgo") 0
  let bitrot_checksum_algo ←
    if csumN = 0 then pure ChecksumAlgo.invalid
    else if csumN = 1 then pure ChecksumAlgo.highwayHash
    else .error .unpackErr
  let part_numbers ← mGetNatList data (strB "PartNums")
  let part_etags ← mGetStrList data (strB "PartETags")
  let part_sizes ← mGetNatList data (strB "PartSizes")
  let part_actual_sizes ← mGetNatList data (strB "PartASizes")
  let part_indices ← mGetBinList data (strB "PartIdx")
  let size ← mGetNat data (strB "Size") 0
  let mod_time ← mGetMTime data
  let meta_sys ← mGetMapStrBin data (strB "MetaSys")
  let meta_user ← mGetMapStrStr data (strB "MetaUsr")
  .ok { version_id, data_dir, erasure_algorithm, erasure_m, erasure_n,
        erasure_block_size, erasure_index, erasure_dist, bitrot_checksum_algo,
        part_numbers, part_etags, part_sizes, part_actual_sizes, part_indices,
        size, mod_time, meta_sys, meta_user }

/-- Source `MetaDeleteMarker.unmarshal_msg`.  A missing/falsy `ID` leaves the
fresh instance's `None`; `MetaSys` defaults to the empty dict. -/
def MetaDeleteMarker.unmarshal_msg (buf : List Nat) : Except MErr MetaDeleteMarker := do
  let some (.map data, _) := parseMVal (buf.length + 1) buf | .error .unpackErr
  let version_id ← mGetUUID data (strB "ID")
  let mod_time ← mGetMTime data
  let meta_sys ← mGetMapStrBin data (strB "MetaSys")
  .ok { version_id, mod_time, meta_sys := some meta_sys }

/-- Source `FileMetaVersion.unmarshal_msg`; nested payloads under truthy `V2Obj` /
`DelObj` keys round-trip through `packb` and the payload unmarshaller. -/
def FileMetaVersion.unmarshal_msg (buf : List Nat) : Except MErr FileMetaVersion := do
  let some (.map data, _) := parseMVal (buf.length + 1) buf | .error .unpackErr
  let typN ← mGetNat data (strB "Type") 0
  -- `VersionType(n)` raises on values outside the enum
  let version_type ←
    if typN ≤ 3 then pure (VersionType.from_u8 typN) else .error .unpackErr
  let write_version ← mGetNat data (strB "v") 0
  let object ←
    match mgetLast data (strB "V2Obj") with
    | some v =>
      if mvTruthy v then do
        let o ← MetaObject.unmarshal_msg (mvEncode v)
        pure (some o)
      else pure none
    | none => pure none
  let delete_marker ←
    match mgetLast data (strB "DelObj") with
    | some v =>
      if mvTruthy v then do
        let d ← MetaDeleteMarker.unmarshal_msg (mvEncode v)
        pure (some d)
      else pure none
    | none => pure none
  .ok { version_type, object, delete_marker, write_version }

/-- Source `FileMetaVersion.try_from`. -/
def FileMetaVersion.try_from (buf : List Nat) : Except MErr FileMetaVersion :=
  FileMetaVersion.unmarshal_msg buf

/-! ### `into_fileinfo` -/

/-- the `AMZ_META_UNENCRYPTED_CONTENT_LENGTH` key. -/
def amzMetaUnencryptedContentLength : List Nat :=
  strB "X-Amz-Meta-X-Amz-Unencrypted-Content-Length"
/-- the `AMZ_META_UNENCRYPTED_CONTENT_MD5` key. -/
def amzMetaUnencryptedContentMd5 : List Nat :=
  strB "X-Amz-Meta-X-Amz-Unencrypted-Content-MD5"
/-- the `AMZ_STORAGE_CLASS` key (from `filemeta.py`). -/
def amzStorageClass : List Nat := strB "X-Amz-Storage-Class"
/-- the `VERSION_PURGE_STATUS_KEY` key (from `filemeta.py`). -/
def versionPurgeStatusKey : List Nat := strB "purgestatus"

/-- the `str(ErasureAlgo)` rendering. -/
def ErasureAlgoT.toStr : ErasureAlgoT → List Nat
  | .reedSolomon => strB "reedsolomon"
  | .invalid => strB "invalid"

/-- Source `MetaObject.into_fileinfo`.  Part assembly indexes `part_sizes[i]`
unguarded (an `IndexError` for corrupt payloads, hence the `Except`); the
other part fields are bounds-checked in the source.  `bytes.decode` with
`errors='replace'` is the identity on the byte-list model. -/
def MetaObject.into_fileinfo (o : MetaObject) (volume path : List Nat)
    (all_parts : Bool) : Except MErr FileInfo := do
  let version_id := o.version_id.bind (fun v => if v ≠ 0 then some v else none)
  let parts ←
    if all_parts then
      (List.range o.part_numbers.length).mapM (fun i => do
        if i < o.part_sizes.length then
          Except.ok
            { number := o.part_numbers.getD i 0
              size := o.part_sizes.getD i 0
              actual_size := if i < o.part_actual_sizes.length then
                o.part_actual_sizes.getD i 0 else 0
              etag := if i < o.part_etags.length then o.part_etags.getD i [] else []
              index := if i < o.part_indices.length ∧ o.part_indices.getD i [] ≠ [] then
                some (o.part_indices.getD i []) else none
              : ObjectPartInfo }
        else Except.error MErr.unpackErr)
    else pure []
  let mUser := o.meta_user.filter (fun kv =>
    ¬ (kv.1 = amzMetaUnencryptedContentLength ∨ kv.1 = amzMetaUnencryptedContentMd5) ∧
    ¬ (kv.1 = amzStorageClass ∧ kv.2 = strB "STANDARD"))
  let mSys := o.meta_sys.filter (fun kv =>
    ¬ (kv.1 = amzStorageClass ∧ kv.2 = strB "STANDARD") ∧
    (reservedMetadataPfx.isPrefixOf kv.1 ∨ reservedMetadataPfxLower.isPrefixOf kv.1 ∨
      kv.1 = versionPurgeStatusKey))
  let erasure : ErasureInfo :=
    { algorithm := o.erasure_algorithm.toStr
      data_blocks := o.erasure_m
      parity_blocks := o.erasure_n
      block_size := o.erasure_block_size
      index := o.erasure_index
      distribution := o.erasure_dist }
  .ok { version_id, erasure, data_dir := o.data_dir, mod_time := o.mod_time,
        size := o.size, name := path, volume, parts, metadata := mUser ++ mSys }

/-- Source `MetaDeleteMarker.into_fileinfo`. -/
def MetaDeleteMarker.into_fileinfo (d : MetaDeleteMarker) (volume path : List Nat)
    (_all_parts : Bool) : FileInfo :=
  { version_id := d.version_id.bind (fun v => if v ≠ 0 then some v else none)
    name := path
    volume
    deleted := true
    mod_time := d.mod_time
    metadata := d.meta_sys.getD [] }

/-- Source `FileMetaVersion.into_fileinfo`. -/
def FileMetaVersion.into_fileinfo (v : FileMetaVersion) (volume path : List Nat)
    (all_parts : Bool) : Except MErr FileInfo :=
  match v.version_type, v.object, v.delete_marker with
  | .object, some o, _ => o.into_fileinfo volume path all_parts
  | .delete, _, some d => .ok (d.into_fileinfo volume path all_parts)
  | _, _, _ => .ok { name := path, volume }

/-- Source `FileMetaShallowVersion.into_fileinfo`: decode the payload, then
convert. -/
def FileMetaShallowVersion.into_fileinfo (sv : FileMetaShallowVersion)
    (volume path : List Nat) (all_parts : Bool) : Except MErr FileInfo := do
  let fv ← FileMetaVersion.try_from sv.meta
  fv.into_fileinfo volume path all_parts

/-! ### The `FileMeta` container -/

/-- the `XL_FILE_HEADER` magic bytes. -/
def XL_FILE_HEADER : List Nat := strB "XL2 "
/-- Source `XL_FILE_VERSION_MAJOR`. -/
def XL_FILE_VERSION_MAJOR : Nat := 1
/-- Source `XL_FILE_VERSION_MINOR`. -/
def XL_FILE_VERSION_MINOR : Nat := 3
/-- Source `XL_HEADER_VERSION`. -/
def XL_HEADER_VERSION : Nat := 3
/-- Source `XL_META_VERSION`. -/
def XL_META_VERSION : Nat := 2

/-- Source `FileMeta`: the in-memory container — shallow versions, the raw
inline-data buffer, the meta version. -/
structure FileMeta where
  versions : List FileMetaShallowVersion := []
  data : List Nat := []
  meta_ver : Nat := XL_META_VERSION
deriving DecidableEq, Repr

namespace FileMeta

/-- Source `FileMeta.new()`. -/
def new : FileMeta := {}

/-- Source `FileMeta.check_xl2_v1`: fixed header, little-endian major/minor, major
must not exceed the writer's. -/
def check_xl2_v1 (buf : List Nat) : Except MErr (List Nat × Nat × Nat) :=
  if buf.length < 8 then .error .xlFileHeaderNotExists
  else if buf.take 4 ≠ XL_FILE_HEADER then .error .xlFileHeaderErr
  else
    let major := le16 (buf.getD 4 0) (buf.getD 5 0)
    let minor := le16 (buf.getD 6 0) (buf.getD 7 0)
    if major > XL_FILE_VERSION_MAJOR then .error .xlFileVersionErr
    else .ok (buf.drop 8, major, minor)

/-- Source `FileMeta.is_xl2_v1_format`: the non-throwing predicate — `True` iff
`check_xl2_v1` does not raise. -/
def is_xl2_v1_format (buf : List Nat) : Bool :=
  match check_xl2_v1 buf with
  | .ok _ => true
  | .error _ => false

/-- Stream read size of `msgpack.Unpacker` when constructed over a file-like
object with `read_size=0` (as this code always does): the pure-Python
implementation reads the underlying stream in chunks of
`min(max_buffer_size, 16 * 1024)` bytes, i.e. 16 KiB (the C extension uses an
even larger default chunk).  The unpacker therefore advances the shared
`BytesIO` cursor by whole chunks, far past the bytes it actually decoded.
Every metadata blob relevant below is smaller than either bound, on which
domain the two chunk sizes are observationally identical, so the model fixes
the 16 KiB figure. -/
def msgpackReadSize : Nat := 16384

/-- Source `FileMeta.decode_xl_headers`: header version, meta version and version
count off the front of the metadata blob.  The three `unpack()` calls decode
the integers sequentially (a single `Unpacker`, so chunked reads are
transparent to the values), but the returned remainder is `buf[cur.tell():]`,
and the unpacker's first read has already pulled a whole `msgpackReadSize`
chunk from `cur` — so the remainder skips `min(msgpackReadSize, len(buf))`
bytes, not the few bytes of the three integers: it is empty for every blob
below the read size. -/
def decode_xl_headers (buf : List Nat) :
    Except MErr (Nat × Nat × Nat × List Nat) := do
  let some (header_ver, rest1) := parseNat buf | .error .unpackErr
  if header_ver > XL_HEADER_VERSION then .error .xlHeaderVersionInvalid
  else do
    let some (meta_ver, rest2) := parseNat rest1 | .error .unpackErr
    if meta_ver > XL_META_VERSION then .error .xlMetaVersionInvalid
    else do
      let some (versions_len, _rest3) := parseNat rest2 | .error .unpackErr
      .ok (versions_len, header_ver, meta_ver, buf.drop msgpackReadSize)

/-- The version-decoding loop of `unmarshal_msg`: `versions_len` pairs of
(header blob, payload blob), each read with `raw=True`.  Each iteration of the
source constructs a FRESH `msgpack.Unpacker` over the one shared `BytesIO`.
Within an iteration the two unpacks are correct sequential parses (a single
unpacker pulls further chunks on demand, so chunk boundaries do not affect the
decoded values), and on an exhausted stream the first unpack raises
`OutOfData`; but the iteration's unpacker has prefetched whole
`msgpackReadSize` chunks — enough to cover the bytes it consumed — and
everything prefetched beyond the two objects is lost to the next iteration's
fresh unpacker, so the stream advances by the chunk-rounded amount
`msgpackReadSize * ceil(consumed / msgpackReadSize)` rather than by
`consumed`. -/
def parseShallowVersions : Nat → List Nat → Except MErr (List FileMetaShallowVersion)
  | 0, _ => .ok []
  | n + 1, cur =>
    match parseBytesRaw cur with
    | none => .error .unpackErr
    | some (header_buf, afterHeader) => do
      let header ← FileMetaVersionHeader.unmarshal_msg header_buf
      match parseBytesRaw afterHeader with
      | none => .error .unpackErr
      | some (ver_meta_buf, afterMeta) => do
        let consumed := cur.length - afterMeta.length
        let prefetched :=
          msgpackReadSize * ((consumed + msgpackReadSize - 1) / msgpackReadSize)
        let rest ← parseShallowVersions n (cur.drop prefetched)
        .ok ({ header, meta := ver_meta_buf } :: rest)

/-- Source `FileMeta.unmarshal_msg` on a freshly constructed `FileMeta` (which is
what `FileMeta.load` does): header check, length-prefixed metadata blob
(the source reads the bin object and then skips its hard-coded 5-byte
bin32 prefix), CRC field (mismatch is deliberately ignored), inline tail,
then the version records.  -/
def unmarshal_msg (buf : List Nat) : Except MErr FileMeta := do
  let (buf, _major, _minor) ← check_xl2_v1 buf
  if buf.length < 5 then .error .insufficientDataForSize
  else do
    let some (binContent, _) := parseBytesRaw buf | .error .unpackErr
    let bin_len := binContent.length
    let buf := buf.drop 5
    if buf.length < bin_len then .error .insufficientDataForMetadata
    else do
      let meta := buf.take bin_len
      let buf := buf.drop bin_len
      if buf.length < 5 then .error .insufficientDataForCRC
      else do
        let some (_crc, _) := parseNat buf | .error .unpackErr
        let buf := buf.drop 5
        -- the CRC comparison only logs on mismatch; no observable effect
        let data := buf
        if data ≠ [] ∧ ¬ InlineData.validate data then .error .inlineDataInvalid
        else if meta = [] then
          .ok { versions := [], data, meta_ver := XL_META_VERSION }
        else do
          let (versions_len, _hv, meta_ver, meta) ← decode_xl_headers meta
          let versions ← parseShallowVersions versions_len meta
          .ok { versions, data, meta_ver }

/-- Source `FileMeta.load`. -/
def load (buf : List Nat) : Except MErr FileMeta :=
  unmarshal_msg buf

/-- The serialized metadata blob of `marshal_msg`: the three header
integers followed by the (header, payload) pairs, each bin-wrapped. -/
def metaBlob (fm : FileMeta) : List Nat :=
  packNat XL_HEADER_VERSION ++ packNat XL_META_VERSION ++ packNat fm.versions.length ++
  (fm.versions.map (fun v => packBin v.header.marshal_msg ++ packBin v.meta)).flatten

/-- Source `FileMeta.marshal_msg`.  `crcF` stands for Python's builtin `hash`
(process-seeded); the source masks it to 32 bits and the reader ignores
mismatches, so every `crcF` yields a loadable buffer.  The blob length and
CRC are always written in the 5-byte bin32 / uint32 forms. -/
def marshal_msg (crcF : List Nat → Nat) (fm : FileMeta) : List Nat :=
  XL_FILE_HEADER ++ [1, 0] ++ [3, 0] ++
  (0xc6 :: natToBE 4 fm.metaBlob.length) ++ fm.metaBlob ++
  (0xce :: natToBE 4 (crcF fm.metaBlob % 0x100000000)) ++
  fm.data

/-! ### FileMeta mutation operations -/

/-- Source `FileMeta.sort_by_mod_time`: the source merely reverses the list (and
leaves short lists alone). -/
def sort_by_mod_time (fm : FileMeta) : FileMeta :=
  if fm.versions.length ≤ 1 then fm
  else { fm with versions := fm.versions.reverse }

/-- Source `FileMeta.get_idx`. -/
def get_idx (fm : FileMeta) (idx : Nat) : Except MErr FileMetaVersion :=
  if idx ≥ fm.versions.length then .error .fileNotFound
  else FileMetaVersion.try_from (fm.versions.getD idx {}).meta

/-- Source `FileMeta.set_idx`: replace slot `idx` with the re-derived header and
re-marshalled payload; re-sort when the mod-time changed. -/
def set_idx (fm : FileMeta) (idx : Nat) (ver : FileMetaVersion) : Except MErr FileMeta :=
  if idx ≥ fm.versions.length then .error .fileNotFound
  else
    let meta_buf := ver.marshal_msg
    let pre_mod_time := (fm.versions.getD idx {}).header.mod_time
    let fm := { fm with versions := fm.versions.set idx { header := ver.header, meta := meta_buf } }
    if pre_mod_time ≠ ver.header.mod_time then .ok fm.sort_by_mod_time
    else .ok fm

/-- Source `FileMeta.add_version_filemata`: validity check, the 100-version limit
check (`len(versions) + 1 >= 100`), then insertion before the first
existing version that `sorts_before` the new one. -/
def add_version_filemata (fm : FileMeta) (ver : FileMetaVersion) : Except MErr FileMeta :=
  if ¬ ver.valid then .error .addInvalidVersion
  else if fm.versions.length + 1 ≥ 100 then .error .maxVersionsExceeded
  else
    let new_version : FileMetaShallowVersion := { header := ver.header, meta := ver.marshal_msg }
    let insert_pos :=
      (fm.versions.findIdx? (fun existing => existing.header.sorts_before new_version.header)).getD
        fm.versions.length
    .ok { fm with versions := fm.versions.insertIdx insert_pos new_version }

/-- Source `FileMeta.add_version`: attach inline data when present, build the
version from the `FileInfo`, replace in place on a version-id match,
otherwise insert. -/
def add_version (fm : FileMeta) (fi : FileInfo) : Except MErr FileMeta :=
  let vid := fi.version_id
  let fm :=
    match fi.data with
    | some d => { fm with data := InlineData.replace fm.data (uuidStrB (vid.getD 0)) d }
    | none => fm
  let version := FileMetaVersion.from_fileinfo fi
  if ¬ version.valid then .error .fileMetaVersionInvalid
  else
    match fm.versions.findIdx? (fun ver => ver.header.version_id == vid) with
    | some idx => fm.set_idx idx version
    | none => fm.add_version_filemata version

/-- One adjacent step of `is_sorted_by_mod_time`: a violation is an
earlier-slot time strictly below the next, or a timed version after an
untimed one. -/
def sortedPairOk (prev curr : Option Nat) : Bool :=
  match prev, curr with
  | some p, some c => ¬ (p < c)
  | none, some _ => false
  | _, none => true

/-- The adjacent-pairs walk of `is_sorted_by_mod_time`. -/
def sortedChain : List (Option Nat) → Bool
  | [] => true
  | [_] => true
  | a :: b :: rest => sortedPairOk a b && sortedChain (b :: rest)

/-- Source `FileMeta.is_sorted_by_mod_time`. -/
def is_sorted_by_mod_time (fm : FileMeta) : Bool :=
  sortedChain (fm.versions.map (fun v => v.header.mod_time))

/-- The scan inside `FileMeta.into_fileinfo`: walk the versions tracking
`is_latest` and the successor mod-time until the requested version is
found. -/
def intoFileinfoGo (fm : FileMeta) (volume path : List Nat) (has_vid : Option Nat)
    (read_data : Bool) (all_parts : Bool) :
    List FileMetaShallowVersion → Bool → Option Nat → Except MErr FileInfo
  | [], _, _ =>
    if has_vid = none then .error .fileNotFound else .error .fileVersionNotFound
  | ver :: rest, is_latest, succ_mod_time =>
    if has_vid.isSome ∧ ver.header.version_id ≠ has_vid then
      intoFileinfoGo fm volume path has_vid read_data all_parts rest false ver.header.mod_time
    else do
      let fi ← ver.into_fileinfo volume path all_parts
      let fi := { fi with is_latest }
      let fi := if succ_mod_time.isSome then { fi with successor_mod_time := succ_mod_time } else fi
      let fi :=
        if read_data ∧ fi.version_id.isSome then
          match InlineData.find fm.data (uuidStrB (fi.version_id.getD 0)) with
          | some d => { fi with data := some d }
          | none => fi
        else fi
      .ok { fi with num_versions := fm.versions.length }

/-- Source `FileMeta.into_fileinfo`.  The `version_id` argument models the parsed
`uuid.UUID(version_id)` of the source's string argument (`none` when the
string is empty or unparsable); the zero UUID is then dropped exactly as
in the source. -/
def into_fileinfo (fm : FileMeta) (volume path : List Nat) (version_id : Option Nat)
    (read_data : Bool) (all_parts : Bool) : Except MErr FileInfo :=
  let has_vid := version_id.bind (fun v => if v ≠ 0 then some v else none)
  intoFileinfoGo fm volume path has_vid read_data all_parts fm.versions true none

end FileMeta

/-- Source `get_file_info`.  `version_id` models the parsed `uuid.UUID` of the
string argument (`none` when empty or unparsable); `read_data` is
`opts.data`.  A loadable buffer with zero versions yields the synthetic
deleted-latest `FileInfo` with mod-time one second past the epoch
(`datetime.fromtimestamp(1)`, i.e. `10^9` nanoseconds). -/
def get_file_info (buf : List Nat) (volume path : List Nat) (version_id : Option Nat)
    (read_data : Bool) : Except MErr FileInfo := do
  let meta ← FileMeta.load buf
  if meta.versions = [] then
    .ok { volume, name := path, version_id, is_latest := true, deleted := true,
          mod_time := some 1000000000 }
  else
    meta.into_fileinfo volume path version_id read_data true

/-! ### Cross-replica merge (`merge_file_meta_versions`) -/

instance : Inhabited FileMetaShallowVersion := ⟨{}⟩

/-- The tops-gathering pass at the head of each merge round.  Python resets
`consistent` to `True` at the first non-empty list; an empty list
encountered while `tops` is still empty also sets it `False` first (and is
then overwritten), while an empty list after the first non-empty one
leaves it `False`. -/
def gatherTops (versions : List (List FileMetaShallowVersion)) :
    List FileMetaShallowVersion × Option FileMetaVersionHeader × Bool :=
  versions.foldl
    (fun acc vers =>
      let (tops, top_sig, consistent) := acc
      match vers with
      | [] => (tops, top_sig, false)
      | v :: _ =>
        if tops.isEmpty then ([v], some v.header, true)
        else (tops ++ [v], top_sig, consistent && (some v.header == top_sig)))
    ([], none, true)

/-- The distinguishing key of the duplicate-version-id counting fallback:
`(version_id, mod_time, version_type, flags)`.  (The source clears the
clone's signature in non-strict mode, but the signature is not part of the
key and `latest` is taken from the original `tops`, so that clear has no
observable effect.) -/
def dupKey (a : FileMetaShallowVersion) : Option Nat × Option Nat × VersionType × Nat :=
  (a.header.version_id, a.header.mod_time, a.header.version_type, a.header.flags)

/-- Distinct elements of a list in first-occurrence order (the iteration
order of the Python dict the counting loop builds). -/
def firstOccur {κ : Type} [DecidableEq κ] : List κ → List κ
  | [] => []
  | k :: rest => k :: firstOccur (rest.filter (fun x => x ≠ k))
termination_by l => l.length
decreasing_by
  simp only [List.length_cons]
  exact Nat.lt_succ_of_le (List.length_filter_le _ _)

/-- The duplicate-version-id counting fallback: histogram the tops sharing
`vid` by `dupKey`, walk the keys in first-occurrence order keeping a key
only on a strictly larger count, and take as `latest` the last top in
`tops` carrying the winning key. -/
def dupCountSelect (tops : List FileMetaShallowVersion) (vid : Option Nat)
    (latest0 : FileMetaShallowVersion) : FileMetaShallowVersion × Nat :=
  let keyed := tops.filter (fun a => a.header.version_id == vid)
  let keys := firstOccur (keyed.map dupKey)
  keys.foldl
    (fun acc k =>
      let (latest, latest_count) := acc
      let v := keyed.countP (fun a => dupKey a == k)
      if v < latest_count then acc
      else if v = latest_count then acc
      else
        (((tops.filter (fun a => dupKey a == k)).getLast?).getD latest, v))
    (latest0, 0)

/-- The winner-selection loop of an inconsistent merge round: walk `tops`
with an index, keeping the current `latest` and its agreement count; the
duplicate-version-id fallback ends the walk early. -/
def selectLatestGo (strict : Bool) (tops : List FileMetaShallowVersion) (i : Nat) :
    List FileMetaShallowVersion → FileMetaShallowVersion → Nat →
    FileMetaShallowVersion × Nat
  | [], latest, latest_count => (latest, latest_count)
  | ver :: rest, latest, latest_count =>
    if ver.header == latest.header then
      selectLatestGo strict tops (i + 1) rest latest (latest_count + 1)
    else if i = 0 ∨ ver.header.sorts_before latest.header then
      let cnt :=
        if i = 0 ∨ latest_count = 0 then 1
        else if ¬ strict ∧ ver.header.matches_not_strict latest.header then latest_count + 1
        else 1
      selectLatestGo strict tops (i + 1) rest ver cnt
    else if latest_count > 0 ∧ ¬ strict ∧ ver.header.matches_not_strict latest.header then
      selectLatestGo strict tops (i + 1) rest latest (latest_count + 1)
    else if latest_count > 0 ∧ ver.header.version_id == latest.header.version_id then
      dupCountSelect tops ver.header.version_id latest
    else
      selectLatestGo strict tops (i + 1) rest latest latest_count

/-- Winner selection over the whole `tops` list, starting from the default
(empty) `latest`. -/
def selectLatest (strict : Bool) (tops : List FileMetaShallowVersion) :
    FileMetaShallowVersion × Nat :=
  selectLatestGo strict tops 0 tops {} 0

/-- The removal pass at the end of each merge round: drop, from every
list, the entries strictly older than the winner, equal to the winner,
sharing the winner's version id, or sharing any already-merged version
id.  (Python's `if a and b` datetime test is a `None` test.) -/
def removePass (latest : FileMetaShallowVersion) (merged : List FileMetaShallowVersion)
    (versions : List (List FileMetaShallowVersion)) : List (List FileMetaShallowVersion) :=
  versions.map (fun vers => vers.filter (fun ver =>
    ¬ ((latest.header.mod_time.isSome ∧ ver.header.mod_time.isSome ∧
          ver.header.mod_time.getD 0 < latest.header.mod_time.getD 0) ∨
       ver.header == latest.header ∨
       ver.header.version_id == latest.header.version_id ∨
       merged.any (fun m => ver.header.version_id == m.header.version_id))))

/-- One `while True` round and its successors (fuel-bounded; `none` models
both fuel exhaustion — the Python loop need not terminate — and the
`NameError` the source hits when the removal pass runs before `latest`
was ever assigned, i.e. when the first emitting round is consistent). -/
def mergeLoop : Nat → Nat → Bool → Nat → List (List FileMetaShallowVersion) → Nat →
    List FileMetaShallowVersion → Option FileMetaShallowVersion →
    Option (List FileMetaShallowVersion)
  | 0, _, _, _, _, _, _, _ => none
  | fuel + 1, quorum, strict, requested_versions, versions, n_versions, merged, latestOpt =>
    let (tops, _top_sig, consistent) := gatherTops versions
    if tops.length < quorum then some merged
    else
      let st : Nat × List FileMetaShallowVersion × Option FileMetaShallowVersion :=
        if consistent then
          ((if (tops.headD default).header.free_version then n_versions + 1 else n_versions),
           merged ++ [tops.headD default], latestOpt)
        else
          let (latest, latest_count) := selectLatest strict tops
          if latest_count ≥ quorum then
            ((if ¬ latest.header.free_version then n_versions + 1 else n_versions),
             merged ++ [latest], some latest)
          else (n_versions, merged, some latest)
      let n_versions := st.1
      let merged := st.2.1
      match st.2.2 with
      | none => none
      | some latest =>
        let versions := removePass latest merged versions
        if requested_versions > 0 ∧ requested_versions = n_versions then
          some (merged ++ (if versions ≠ [] ∧ versions.headD [] ≠ [] then versions.headD [] else []))
        else
          mergeLoop fuel quorum strict requested_versions versions n_versions merged (some latest)

/-- Source `merge_file_meta_versions`.  `fuel` bounds the `while True` loop, which
the source does not bound; `some` results exhibit actual termination. -/
def merge_file_meta_versions (fuel : Nat) (quorum : Nat) (strict : Bool)
    (requested_versions : Nat) (versions : List (List FileMetaShallowVersion)) :
    Option (List FileMetaShallowVersion) :=
  let quorum := if quorum = 0 then 1 else quorum
  if versions.length < quorum ∨ versions = [] then some []
  else if versions.length = 1 then some (versions.headD [])
  else
    let strict := if quorum = 1 then true else strict
    mergeLoop fuel quorum strict requested_versions versions 0 [] none

/-! ## Validity predicates and canonical sorting -/

/-- Well-formedness of a version header as the system's writers produce it:
UUID and timestamp are either absent or non-sentinel in-range values, the
signature is the 4-byte digest slot, and the numeric fields fit msgpack's
uint64 (beyond which `msgpack.packb` raises). -/
def FileMetaVersionHeader.wf (h : FileMetaVersionHeader) : Prop :=
  (match h.version_id with
   | none => True
   | some v => 0 < v ∧ v < 2 ^ 128) ∧
  (match h.mod_time with
   | none => True
   | some t => 0 < t ∧ t < 2 ^ 64) ∧
  h.signature.length = 4 ∧ h.flags < 2 ^ 64 ∧ h.ec_n < 2 ^ 64 ∧ h.ec_m < 2 ^ 64

instance (h : FileMetaVersionHeader) : Decidable h.wf := by
  unfold FileMetaVersionHeader.wf
  cases h.version_id <;> cases h.mod_time <;> exact inferInstance

/-- The canonical order on shallow versions induced by `sorts_before`:
`a` may precede `b` iff `b` does not sort strictly before `a`. -/
def canonicalOrder (a b : FileMetaShallowVersion) : Prop :=
  ¬ (b.header.sorts_before a.header = true)

instance : DecidableRel canonicalOrder := fun _ _ => by
  unfold canonicalOrder
  exact inferInstance

/-- The canonical sort of a version list (§3 invariant 1). -/
def sortCanonical (vs : List FileMetaShallowVersion) : List FileMetaShallowVersion :=
  List.insertionSort canonicalOrder vs

/-- A valid `FileMeta`: canonically sorted versions (§3 invariant 1),
well-formed headers, serialized sizes inside the bin32 / uint ranges the
writer can emit, and a valid inline-data buffer. -/
def ValidFileMeta (fm : FileMeta) : Prop :=
  fm.versions.Pairwise canonicalOrder ∧
  (∀ v ∈ fm.versions, v.header.wf ∧ v.meta.length < 2 ^ 32) ∧
  fm.versions.length < 2 ^ 64 ∧
  fm.metaBlob.length < 2 ^ 32 ∧
  InlineData.validate fm.data = true ∧
  fm.meta_ver = XL_META_VERSION

instance {e a : Type} [DecidableEq e] [DecidableEq a] : DecidableEq (Except e a) := fun x y =>
  match x, y with
  | .ok u, .ok v => if h : u = v then isTrue (by rw [h]) else isFalse (by simp [h])
  | .error u, .error v => if h : u = v then isTrue (by rw [h]) else isFalse (by simp [h])
  | .ok _, .error _ => isFalse (by simp)
  | .error _, .ok _ => isFalse (by simp)

/-! ## Concrete instances used by the claims -/

/-- A well-formed erasure layout (4 data, 2 parity). -/
def eInfoC : ErasureInfo :=
  { data_blocks := 4, parity_blocks := 2, block_size := 1024, index := 1,
    distribution := [1, 2, 3, 4, 5, 6] }

/-- An object version at mod-time 2000 (the newer of the pair). -/
def fiModT2 : FileInfo :=
  { version_id := some 2, mod_time := some 2000, size := 10, erasure := eInfoC }

/-- An object version at mod-time 1000 (the older of the pair). -/
def fiModT1 : FileInfo :=
  { version_id := some 1, mod_time := some 1000, size := 20, erasure := eInfoC }

/-- A `FileMeta` already holding 99 object versions (fresh version ids). -/
def fm99 : FileMeta :=
  { versions := (List.range 99).map (fun i =>
      { header := { version_id := some (i + 10), mod_time := some 500,
                    version_type := .object, flags := 2, ec_n := 2, ec_m := 4 } }) }

/-- The same container trimmed to 98 versions. -/
def fm98 : FileMeta := { versions := fm99.versions.take 98 }

/-- Version `V@T2`: the newer replica-top version of Scenario 5. -/
def shvT2 : FileMetaShallowVersion :=
  { header := { version_id := some 2, mod_time := some 2000, version_type := .object,
                flags := 2, ec_n := 2, ec_m := 4 } }

/-- Version `V@T1`: the older version of Scenario 5. -/
def shvT1 : FileMetaShallowVersion :=
  { header := { version_id := some 1, mod_time := some 1000, version_type := .object,
                flags := 2, ec_n := 2, ec_m := 4 } }

/-- The Scenario 3 error vector. -/
def errsC5 : List (Option DiskErr) :=
  [none, none, some .diskNotFound, none, some .fileAccessDenied]

/-- A marshalled zero-version `xl.meta` buffer: header, empty metadata
blob `(3, 2, 0)`, CRC field, no inline data. -/
def bufC10 : List Nat :=
  [88, 76, 50, 32, 1, 0, 3, 0, 0xc6, 0, 0, 0, 3, 3, 2, 0, 0xce, 0, 0, 0, 0]

/-- A small valid `FileMeta` exercising the round-trip: one object version
with payload bytes and a one-entry inline map. -/
def fmRT : FileMeta :=
  { versions := [{ header := { version_id := some 5, mod_time := some 123,
                               version_type := .object, flags := 2, ec_n := 2, ec_m := 4 },
                   meta := [1, 2, 3] }]
    data := InlineData.serialize_dict [(strB "k", [9, 8])] }

/-- A fresh bitrot writer with shard size 4 over SHA-256. -/
def bwC8 : BitrotWriter :=
  { inner := [], shard_size := 4, hash_algo := .SHA256, finished := false }

/-! # Theorems

## Byte-level helper lemmas -/

theorem natToBE_length (k n : Nat) : (natToBE k n).length = k := by
  induction k generalizing n with
  | zero => rfl
  | succ k ih => simp [natToBE, ih]

theorem beToNat_append_singleton (xs : List Nat) (b : Nat) :
    beToNat (xs ++ [b]) = beToNat xs * 256 + b := by
  simp [beToNat, List.foldl_append]

theorem beToNat_natToBE_mod (k n : Nat) : beToNat (natToBE k n) = n % 256 ^ k := by
  induction k generalizing n with
  | zero => simp [natToBE, beToNat, Nat.mod_one]
  | succ k ih =>
    rw [natToBE, beToNat_append_singleton, ih, pow_succ, mul_comm ((256 : Nat) ^ k) 256,
      Nat.mod_mul]
    ring

theorem beToNat_natToBE (k n : Nat) (h : n < 256 ^ k) : beToNat (natToBE k n) = n := by
  rw [beToNat_natToBE_mod, Nat.mod_eq_of_lt h]

theorem take_append_len {α : Type} (l₁ l₂ : List α) {n : Nat} (h : l₁.length = n) :
    (l₁ ++ l₂).take n = l₁ := by
  subst h
  exact List.take_left l₁ l₂

theorem drop_append_len {α : Type} (l₁ l₂ : List α) {n : Nat} (h : l₁.length = n) :
    (l₁ ++ l₂).drop n = l₂ := by
  subst h
  exact List.drop_left l₁ l₂

theorem parseNat_packNat (n : Nat) (h : n < 2 ^ 64) (r : List Nat) :
    parseNat (packNat n ++ r) = some (n, r) := by
  unfold packNat
  split_ifs with h1 h2 h3 h4
  · simp [parseNat, h1]
  · simp [parseNat, show ¬ ((0xcc : Nat) < 0x80) by norm_num]
  · have hlen := natToBE_length 2 n
    have hv := beToNat_natToBE 2 n (by norm_num at h3 ⊢; omega)
    simp only [List.cons_append, parseNat]
    rw [take_append_len _ _ hlen, drop_append_len _ _ hlen]
    simp [hlen, hv, List.length_append]
  · have hlen := natToBE_length 4 n
    have hv := beToNat_natToBE 4 n (by norm_num at h4 ⊢; omega)
    simp only [List.cons_append, parseNat]
    rw [take_append_len _ _ hlen, drop_append_len _ _ hlen]
    simp [hlen, hv, List.length_append]
  · have hlen := natToBE_length 8 n
    have hv := beToNat_natToBE 8 n (by norm_num at h ⊢; omega)
    simp only [List.cons_append, parseNat]
    rw [take_append_len _ _ hlen, drop_append_len _ _ hlen]
    simp [hlen, hv, List.length_append]

theorem parseBytesRaw_packBin (b : List Nat) (h : b.length < 2 ^ 32) (r : List Nat) :
    parseBytesRaw (packBin b ++ r) = some (b, r) := by
  unfold packBin
  split_ifs with h1 h2
  · simp only [List.cons_append, parseBytesRaw]
    rw [take_append_len b r rfl, drop_append_len b r rfl]
    simp
  · have hlen := natToBE_length 2 b.length
    have hv := beToNat_natToBE 2 b.length (by norm_num at h2 ⊢; omega)
    simp only [List.cons_append, List.append_assoc, parseBytesRaw]
    rw [take_append_len _ _ hlen, drop_append_len _ _ hlen, hv,
      take_append_len b r rfl, drop_append_len b r rfl]
    simp [hlen, List.length_append]
  · have hlen := natToBE_length 4 b.length
    have hv := beToNat_natToBE 4 b.length (by norm_num at h ⊢; omega)
    simp only [List.cons_append, List.append_assoc, parseBytesRaw]
    rw [take_append_len _ _ hlen, drop_append_len _ _ hlen, hv,
      take_append_len b r rfl, drop_append_len b r rfl]
    simp [hlen, List.length_append]

theorem parseBytesRaw_bin32 (blob r : List Nat) (h : blob.length < 2 ^ 32) :
    parseBytesRaw ((0xc6 :: natToBE 4 blob.length) ++ (blob ++ r)) = some (blob, r) := by
  have hlen := natToBE_length 4 blob.length
  have hv := beToNat_natToBE 4 blob.length (by norm_num at h ⊢; omega)
  simp only [List.cons_append, parseBytesRaw]
  rw [take_append_len _ _ hlen, drop_append_len _ _ hlen, hv,
    take_append_len blob r rfl, drop_append_len blob r rfl]
  simp [hlen, List.length_append]

theorem drop5_hdr32 (m L : Nat) (x : List Nat) : ((m :: natToBE 4 L) ++ x).drop 5 = x := by
  apply drop_append_len
  simp [natToBE_length]

theorem vt_from_to (t : VersionType) : VersionType.from_u8 t.to_u8 = t := by
  cases t <;> rfl

theorem parseNat_packNat' (n : Nat) (h : n < 2 ^ 64) :
    parseNat (packNat n) = some (n, []) := by
  simpa using parseNat_packNat n h []

theorem header_marshal_roundtrip (h : FileMetaVersionHeader) (hwf : h.wf) :
    FileMetaVersionHeader.unmarshal_msg h.marshal_msg = .ok h := by
  obtain ⟨vid, mt, sig, vt, fl, en, em⟩ := h
  obtain ⟨hvid, hts, hsig, hfl, hen, hem⟩ := hwf
  simp only at hvid hts hsig hfl hen hem
  have h216 : (2 : Nat) ^ 128 = 256 ^ 16 := by norm_num
  have hvd0 : vid.getD 0 < 256 ^ 16 := by
    rw [← h216]
    cases vid with
    | none => positivity
    | some v => exact hvid.2
  have hmt0 : mt.getD 0 < 2 ^ 64 := by
    cases mt with
    | none => positivity
    | some t => exact hts.2
  have hbe : beToNat (natToBE 16 (vid.getD 0)) = vid.getD 0 := beToNat_natToBE _ _ hvd0
  have p0 : ∀ r, parseNat (packNat 7 ++ r) = some (7, r) :=
    fun r => parseNat_packNat 7 (by norm_num) r
  have pVid : ∀ r, parseBytesRaw (packBin (natToBE 16 (vid.getD 0)) ++ r) =
      some (natToBE 16 (vid.getD 0), r) :=
    fun r => parseBytesRaw_packBin _ (by simp [natToBE_length]) r
  have pTs : ∀ r, parseNat (packNat (mt.getD 0) ++ r) = some (mt.getD 0, r) :=
    fun r => parseNat_packNat _ hmt0 r
  have pSig : ∀ r, parseBytesRaw (packBin sig ++ r) = some (sig, r) :=
    fun r => parseBytesRaw_packBin _ (by rw [hsig]; norm_num) r
  have pTu : ∀ r, parseNat (packNat vt.to_u8 ++ r) = some (vt.to_u8, r) :=
    fun r => parseNat_packNat _ (by cases vt <;> norm_num [VersionType.to_u8]) r
  have pFl : ∀ r, parseNat (packNat fl ++ r) = some (fl, r) := fun r => parseNat_packNat _ hfl r
  have pEn : ∀ r, parseNat (packNat en ++ r) = some (en, r) := fun r => parseNat_packNat _ hen r
  have pEm : parseNat (packNat em) = some (em, []) := parseNat_packNat' _ hem
  simp only [FileMetaVersionHeader.marshal_msg, FileMetaVersionHeader.unmarshal_msg,
    List.append_assoc, p0, pVid, pTs, pSig, pTu, pFl, pEn, pEm, hbe, vt_from_to,
    natToBE_length, ne_eq]
  cases vid with
  | none =>
    cases mt with
    | none => simp
    | some t => simp [show t ≠ 0 by omega]
  | some v =>
    have hv0 : v ≠ 0 := by omega
    cases mt with
    | none => simp [hv0]
    | some t => simp [hv0, show t ≠ 0 by omega]

theorem packNat_length_le (n : Nat) : (packNat n).length ≤ 9 := by
  unfold packNat
  split_ifs <;> simp [natToBE_length]

theorem packBin_length_le (b : List Nat) : (packBin b).length ≤ 5 + b.length := by
  unfold packBin
  split_ifs <;> simp [natToBE_length] <;> omega

theorem header_marshal_length_lt (h : FileMetaVersionHeader) (hsig : h.signature.length = 4) :
    h.marshal_msg.length < 2 ^ 32 := by
  have b1 := packNat_length_le 7
  have b2 := packBin_length_le (natToBE 16 (h.version_id.getD 0))
  have b2l := natToBE_length 16 (h.version_id.getD 0)
  have b3 := packNat_length_le (h.mod_time.getD 0)
  have b4 := packBin_length_le h.signature
  have b5 := packNat_length_le h.version_type.to_u8
  have b6 := packNat_length_le h.flags
  have b7 := packNat_length_le h.ec_n
  have b8 := packNat_length_le h.ec_m
  simp only [FileMetaVersionHeader.marshal_msg, List.length_append]
  omega

theorem check_xl2_v1_marshal (rest : List Nat) :
    FileMeta.check_xl2_v1 (XL_FILE_HEADER ++ [1, 0] ++ [3, 0] ++ rest) = .ok (rest, 1, 3) := by
  have hx : XL_FILE_HEADER = [88, 76, 50, 32] := by rfl
  simp [FileMeta.check_xl2_v1, hx, le16, XL_FILE_VERSION_MAJOR]

theorem parseNat_u32hdr (v : Nat) (rest : List Nat) :
    parseNat ((0xce :: natToBE 4 v) ++ rest) = some (beToNat (natToBE 4 v), rest) := by
  simp only [List.cons_append, parseNat]
  rw [take_append_len _ _ (natToBE_length 4 v), drop_append_len _ _ (natToBE_length 4 v)]
  simp [natToBE_length, List.length_append]

/-! ## C2: `load` of `marshal_msg` output -/

theorem exceptBind_ok {e a b : Type} (x : a) (f : a → Except e b) :
    (Except.ok x >>= f) = f x := rfl

theorem exceptBind_error {e a b : Type} (err : e) (f : a → Except e b) :
    ((Except.error err : Except e a) >>= f) = Except.error err := rfl

theorem metaBlob_shape (fm : FileMeta) :
    fm.metaBlob = packNat 3 ++ (packNat 2 ++ (packNat fm.versions.length ++
      (fm.versions.map (fun v => packBin v.header.marshal_msg ++ packBin v.meta)).flatten)) := by
  simp [FileMeta.metaBlob, XL_HEADER_VERSION, XL_META_VERSION, List.append_assoc]

theorem sortCanonical_eq_self {vs : List FileMetaShallowVersion}
    (h : vs.Pairwise canonicalOrder) : sortCanonical vs = vs :=
  List.Sorted.insertionSort_eq h

theorem decode_xl_headers_metaBlob (fm : FileMeta) (hcnt : fm.versions.length < 2 ^ 64) :
    FileMeta.decode_xl_headers fm.metaBlob =
      .ok (fm.versions.length, 3, 2, fm.metaBlob.drop FileMeta.msgpackReadSize) := by
  have d1 : ∀ r, parseNat (packNat 3 ++ r) = some (3, r) :=
    fun r => parseNat_packNat 3 (by norm_num) r
  have d2 : ∀ r, parseNat (packNat 2 ++ r) = some (2, r) :=
    fun r => parseNat_packNat 2 (by norm_num) r
  have d3 : ∀ r, parseNat (packNat fm.versions.length ++ r) = some (fm.versions.length, r) :=
    fun r => parseNat_packNat _ hcnt r
  conv_lhs => rw [metaBlob_shape]
  simp only [FileMeta.decode_xl_headers, d1, d2, d3, XL_HEADER_VERSION, XL_META_VERSION]
  rw [← metaBlob_shape]
  simp

theorem fmRT_valid : ValidFileMeta fmRT := by
  refine ⟨?_, by decide, by decide, by decide, by decide, rfl⟩
  simp [fmRT]

/-- C2: the claimed round-trip FAILS on the code — it never holds for a
version-carrying `FileMeta`.  For every valid `FileMeta` with at least one
version whose metadata blob is below the unpacker read size (every blob this
writer produces in practice — the larger C-extension chunk only widens the
failing range), `load(marshal_msg(F))` raises `msgpack` `OutOfData` (modelled
as `.unpackErr`) instead of returning `F`'s versions: `decode_xl_headers`
returns `buf[cur.tell():]` after its `msgpack.Unpacker` has prefetched the
entire blob from the shared `BytesIO`, so the remainder handed to the version
loop is empty, the version records are lost, and the first loop iteration's
fresh unpacker meets an exhausted stream. -/
theorem load_marshal_raises (crcF : List Nat → Nat) (fm : FileMeta)
    (hv : ValidFileMeta fm) (hne : fm.versions ≠ [])
    (hsmall : fm.metaBlob.length ≤ FileMeta.msgpackReadSize) :
    FileMeta.load (FileMeta.marshal_msg crcF fm) = .error .unpackErr := by
  obtain ⟨hsort, hwf, hcnt, hblob, hdata, hver⟩ := hv
  set blob := fm.metaBlob with hblobdef
  set C := crcF fm.metaBlob % 0x100000000 with hC
  set crc5 : List Nat := 0xce :: natToBE 4 C with hcrc5
  -- stage 1: header check
  have e1 : FileMeta.check_xl2_v1 (FileMeta.marshal_msg crcF fm) =
      .ok ((0xc6 :: natToBE 4 blob.length) ++ (blob ++ (crc5 ++ fm.data)), 1, 3) := by
    rw [show FileMeta.marshal_msg crcF fm =
      XL_FILE_HEADER ++ [1, 0] ++ [3, 0] ++
        ((0xc6 :: natToBE 4 blob.length) ++ (blob ++ (crc5 ++ fm.data))) by
      simp [FileMeta.marshal_msg, List.append_assoc, hcrc5]]
    exact check_xl2_v1_marshal _
  -- stage 2: the bin32 metadata blob
  have e2 : parseBytesRaw ((0xc6 :: natToBE 4 blob.length) ++ (blob ++ (crc5 ++ fm.data))) =
      some (blob, crc5 ++ fm.data) := parseBytesRaw_bin32 blob _ hblob
  have e2d : ((0xc6 :: natToBE 4 blob.length) ++ (blob ++ (crc5 ++ fm.data))).drop 5 =
      blob ++ (crc5 ++ fm.data) := drop5_hdr32 _ _ _
  have e2t : (blob ++ (crc5 ++ fm.data)).take blob.length = blob := take_append_len _ _ rfl
  have e2r : (blob ++ (crc5 ++ fm.data)).drop blob.length = crc5 ++ fm.data :=
    drop_append_len _ _ rfl
  -- stage 3: the CRC field
  have e3 : parseNat (crc5 ++ fm.data) = some (beToNat (natToBE 4 C), fm.data) :=
    parseNat_u32hdr C fm.data
  have e3d : (crc5 ++ fm.data).drop 5 = fm.data := drop5_hdr32 _ _ _
  -- stage 4: the header decode prefetches the entire blob, leaving nothing
  have hrem : blob.drop FileMeta.msgpackReadSize = [] := List.drop_eq_nil_of_le hsmall
  have e4 : FileMeta.decode_xl_headers blob = .ok (fm.versions.length, 3, 2, []) := by
    rw [hblobdef, decode_xl_headers_metaBlob fm hcnt, ← hblobdef, hrem]
  -- stage 5: the version loop hits the exhausted stream at once
  obtain ⟨v0, vs, hcons⟩ := List.exists_cons_of_ne_nil hne
  have e5 : FileMeta.parseShallowVersions fm.versions.length [] = .error .unpackErr := by
    rw [hcons, List.length_cons]
    rfl
  -- lengths for the guards
  have lb : (natToBE 4 blob.length).length = 4 := natToBE_length _ _
  have lc : (natToBE 4 C).length = 4 := natToBE_length _ _
  have hbne : blob ≠ [] := by
    rw [hblobdef, metaBlob_shape]
    simp [packNat]
  -- assemble
  have h5a : ¬ ((198 :: natToBE 4 blob.length ++ (blob ++ (crc5 ++ fm.data))) : List Nat).length < 5 := by
    simp only [List.length_cons, List.length_append, lb]
    omega
  have h5b : ¬ ((blob ++ (crc5 ++ fm.data)).length < blob.length) := by
    simp only [List.length_append]
    omega
  have h5c : ¬ ((crc5 ++ fm.data).length < 5) := by
    simp only [hcrc5, List.cons_append, List.length_cons, List.length_append, lc]
    omega
  rw [FileMeta.load, FileMeta.unmarshal_msg]
  simp only [e1, exceptBind_ok, exceptBind_error, e2, e2d, e2t, e2r, e3, e3d, e4, e5,
    hdata, hbne, h5a, h5b, h5c, ne_eq, not_true, not_false_iff, and_false, false_and, if_false]

/-! ## C2 witness -/

theorem load_marshal_raises_witness :
    ValidFileMeta fmRT ∧ fmRT.versions ≠ [] ∧
    FileMeta.load (FileMeta.marshal_msg (fun _ => 0) fmRT) = .error .unpackErr :=
  ⟨fmRT_valid, by decide,
    load_marshal_raises (fun _ => 0) fmRT fmRT_valid (by decide) (by decide)⟩

/-! ## C1 -/

/-- C1: the claimed sort invariant fails on the code, violating the code's
own `is_sorted_by_mod_time` / `validate_integrity` check.  Starting from an
empty `FileMeta`, `add_version` of a version at mod-time 2000 followed by
`add_version` of a version at mod-time 1000 leaves the list `[T1, T2]` —
oldest first — because `add_version_filemata` inserts the new version
before the first existing version that `sorts_before` it, which reverses
the canonical newest-first order. -/
theorem add_version_breaks_sort_invariant :
    ((FileMeta.new.add_version fiModT2).bind (fun fm => fm.add_version fiModT1)).map
        (fun fm => (fm.versions.map (fun v => v.header.mod_time), fm.is_sorted_by_mod_time)) =
      .ok ([some 1000, some 2000], false) := by decide

/-! ## C3 -/

theorem findIdx?_none_of_all {α : Type} (p : α → Bool) (l : List α) (h : ∀ x ∈ l, ¬ p x) :
    l.findIdx? p = none := by
  induction l with
  | nil => rfl
  | cons a t ih =>
    have ha := h a (List.mem_cons_self a t)
    simp [List.findIdx?_cons, ha, ih (fun x hx => h x (List.mem_cons_of_mem a hx))]

/-- C3 counterexample: a `FileMeta` holding 99 versions rejects the
insertion that would bring the total to 100 (the claim says insertions up
to a total of 100 succeed): the guard is `len(versions) + 1 >= 100`. -/
theorem max_versions_at_100_counterexample :
    fm99.versions.length + 1 = 100 ∧
    fm99.add_version fiModT2 = .error .maxVersionsExceeded := by decide

/-- C3 (amended): a `FileMeta` holds at most 99 versions — `add_version`
of a fresh, valid version succeeds for every insertion that brings the
total to 99 or fewer versions, and inserting version #100 (99 already
present) fails with `MaxVersionsExceeded`. -/
theorem add_version_limit (fm : FileMeta) (fi : FileInfo)
    (hvalid : (FileMetaVersion.from_fileinfo fi).valid = true)
    (hfresh : ∀ v ∈ fm.versions, v.header.version_id ≠ fi.version_id) :
    (fm.versions.length ≤ 98 → ∃ fm', fm.add_version fi = .ok fm') ∧
    (fm.versions.length ≥ 99 → fm.add_version fi = .error .maxVersionsExceeded) := by
  have hfind : ∀ (l : List FileMetaShallowVersion), l = fm.versions →
      l.findIdx? (fun ver => ver.header.version_id == fi.version_id) = none := by
    intro l hl
    subst hl
    exact findIdx?_none_of_all _ _ (fun v hv => by simp [hfresh v hv])
  cases hd : fi.data with
  | none =>
    simp only [FileMeta.add_version, hd, hfind fm.versions rfl, hvalid,
      FileMeta.add_version_filemata, not_true, Bool.not_eq_true, if_false]
    constructor
    · intro hle
      rw [if_neg (by omega)]
      exact ⟨_, rfl⟩
    · intro hge
      rw [if_pos (by omega)]
  | some d =>
    simp only [FileMeta.add_version, hd, hfind _ rfl, hvalid,
      FileMeta.add_version_filemata, not_true, Bool.not_eq_true, if_false]
    constructor
    · intro hle
      rw [if_neg (by omega)]
      exact ⟨_, rfl⟩
    · intro hge
      rw [if_pos (by omega)]

theorem add_version_limit_witness :
    (∃ fm', fm98.add_version fiModT2 = .ok fm') ∧
    fm99.add_version fiModT1 = .error .maxVersionsExceeded :=
  ⟨(add_version_limit fm98 fiModT2 (by decide) (by decide)).1 (by decide),
   (add_version_limit fm99 fiModT1 (by decide) (by decide)).2 (by decide)⟩

/-! ## C4 -/

/-- C4 counterexample: on Scenario 5's input — two replicas listing
`[V@T2, V@T1]` and a third listing `[V@T1]`, identical version ids across
replicas — `merge_file_meta_versions` with quorum 2 does not return
`[V@T2, V@T1]`. -/
theorem merge_scenario5_counterexample :
    merge_file_meta_versions 16 2 false 0 [[shvT2, shvT1], [shvT2, shvT1], [shvT1]] ≠
      some [shvT2, shvT1] := by decide

/-- C4 (amended): on Scenario 5's input, `merge_file_meta_versions` with
quorum 2 returns `[V@T2]` only: after `V@T2` is merged, the removal pass
drops every entry strictly older than the winner (spec §4.D.3 step 5) from
all lists, so `V@T1` is discarded rather than emitted. -/
theorem merge_scenario5_amended :
    merge_file_meta_versions 16 2 false 0 [[shvT2, shvT1], [shvT2, shvT1], [shvT1]] =
      some [shvT2] := by decide

/-! ## C5 -/

/-- C5: for the error vector `[None, None, DiskNotFound, None,
FileAccessDenied]` with ignored set `{DiskNotFound}`, the write-quorum
reducer returns `None` (success) at quorum 3, and `ErasureWriteQuorum` at
quorum 4. -/
theorem reduce_write_quorum_scenario3 :
    reduce_write_quorum_errs errsC5 [DiskErr.diskNotFound] 3 = none ∧
    reduce_write_quorum_errs errsC5 [DiskErr.diskNotFound] 4 =
      some DiskErr.erasureWriteQuorum := by decide

/-! ## C6 -/

theorem foldrMax_le_iff (l : List Nat) (n : Nat) : l.foldr max 0 ≤ n ↔ ∀ x ∈ l, x ≤ n := by
  induction l with
  | nil => simp
  | cons a t ih => simp [Nat.max_le, ih]

theorem le_foldrMax {l : List Nat} {x : Nat} (h : x ∈ l) : x ≤ l.foldr max 0 :=
  (foldrMax_le_iff l (l.foldr max 0)).1 le_rfl x h

theorem foldrMax_mem {l : List Nat} (h : l ≠ []) :
    l.foldr max 0 ∈ l ∨ l.foldr max 0 = 0 := by
  induction l with
  | nil => exact absurd rfl h
  | cons a t ih =>
    simp only [List.foldr_cons]
    rcases Nat.le_total a (t.foldr max 0) with hle | hle
    · by_cases ht : t = []
      · subst ht
        simp
      · rw [Nat.max_eq_right hle]
        rcases ih ht with hmem | hzero
        · exact Or.inl (List.mem_cons_of_mem a hmem)
        · exact Or.inr hzero
    · rw [Nat.max_eq_left hle]
      exact Or.inl (List.mem_cons_self a t)

theorem maxMult_perm {l l' : List DiskErr} (h : l.Perm l') : maxMult l = maxMult l' := by
  have key : ∀ {a b : List DiskErr}, a.Perm b → maxMult a ≤ maxMult b := by
    intro a b hab
    rw [maxMult, foldrMax_le_iff]
    intro x hx
    obtain ⟨e, he, rfl⟩ := List.mem_map.mp hx
    rw [hab.count_eq]
    exact le_foldrMax (List.mem_map_of_mem _ (hab.mem_iff.mp he))
  exact le_antisymm (key h) (key h.symm)

theorem exists_count_eq_maxMult {l : List DiskErr} (h : l ≠ []) :
    ∃ e ∈ l, l.count e = maxMult l := by
  rcases foldrMax_mem (l := l.map (fun e => l.count e)) (by simpa using h) with hmem | hzero
  · obtain ⟨e, he, heq⟩ := List.mem_map.mp hmem
    exact ⟨e, he, heq⟩
  · obtain ⟨a, t, rfl⟩ := List.exists_cons_of_ne_nil h
    have hpos : 0 < (a :: t).count a := List.count_pos_iff.mpr (List.mem_cons_self a t)
    have hle : (a :: t).count a ≤ maxMult (a :: t) :=
      le_foldrMax (List.mem_map_of_mem _ (List.mem_cons_self a t))
    rw [maxMult] at hle
    omega

theorem reduce_errs_perm_none {E Ep : List (Option DiskErr)} (ig : List DiskErr) {c : Nat}
    (hp : E.Perm Ep) (h : reduce_errs E ig = (c, none)) : reduce_errs Ep ig = (c, none) := by
  have hffp : ((E.filterMap id).filter (fun e => ¬ is_ignored_err ig e)).Perm
      ((Ep.filterMap id).filter (fun e => ¬ is_ignored_err ig e)) :=
    (hp.filterMap id).filter _
  have hn : E.countP (fun e => e.isNone) = Ep.countP (fun e => e.isNone) := hp.countP_eq _
  have hm : maxMult ((E.filterMap id).filter (fun e => ¬ is_ignored_err ig e)) =
      maxMult ((Ep.filterMap id).filter (fun e => ¬ is_ignored_err ig e)) := maxMult_perm hffp
  rw [reduce_errs] at h ⊢
  rw [← hn, ← hm]
  split at h
  · rw [if_pos (by assumption)]
    exact h
  · rw [if_neg (by assumption)]
    rw [Prod.mk.injEq] at h ⊢
    obtain ⟨h1, h2⟩ := h
    refine ⟨h1, ?_⟩
    rw [List.find?_eq_none] at h2 ⊢
    intro x hx
    have hthis := h2 x (hffp.mem_iff.mpr hx)
    simp only [decide_eq_true_eq] at hthis ⊢
    rw [← hffp.count_eq x]
    exact hthis




/-- C6: for every error vector, ignored set and quorum, if the quorum
reducer returns `None` (success), it also returns `None` on every
permutation of the vector. -/
theorem reduce_quorum_perm_invariant (E Ep : List (Option DiskErr)) (ig : List DiskErr)
    (q : Nat) (qe : DiskErr) (hp : E.Perm Ep)
    (h : reduce_quorum_errs E ig q qe = none) : reduce_quorum_errs Ep ig q qe = none := by
  rw [reduce_quorum_errs] at h ⊢
  rcases hr : reduce_errs E ig with ⟨c, err⟩
  rw [hr] at h
  by_cases hq : c ≥ q
  · rw [if_pos hq] at h
    subst h
    rw [reduce_errs_perm_none ig hp hr]
    rw [if_pos hq]
  · rw [if_neg hq] at h
    exact absurd h (by simp)

theorem reduce_quorum_perm_invariant_witness :
    reduce_quorum_errs [none, some DiskErr.faultyDisk] [] 1 DiskErr.erasureWriteQuorum = none ∧
    reduce_quorum_errs [some DiskErr.faultyDisk, none] [] 1 DiskErr.erasureWriteQuorum = none :=
  ⟨by decide,
   reduce_quorum_perm_invariant [none, some DiskErr.faultyDisk]
     [some DiskErr.faultyDisk, none] [] 1 DiskErr.erasureWriteQuorum
     (List.Perm.swap (some DiskErr.faultyDisk) none []) (by decide)⟩

/-! ## C7 -/

/-- C7 counterexample: `Md5` has non-zero width 16, yet
`bitrot_shard_file_size 8 8 Md5` returns the plain size 8, not
`ceil(8/8) * (16 + 8) = 24` — the code applies the formula only when the
algorithm is `SHA256`. -/
theorem bitrot_shard_file_size_counterexample :
    HashAlgorithm.Md5.size = 16 ∧ HashAlgorithm.Md5.size ≠ 0 ∧
    bitrot_shard_file_size 8 8 .Md5 = 8 ∧
    bitrot_shard_file_size 8 8 .Md5 ≠ (8 + 8 - 1) / 8 * (HashAlgorithm.Md5.size + 8) := by
  decide

/-- C7 (amended): for every plaintext size `S` and shard-block size
`B > 0`, `bitrot_shard_file_size` computes `ceil(S/B) * (W + B)` exactly
when the algorithm is `SHA256` (width 32); for every other algorithm —
including the remaining non-zero-width ones — it returns `S` unchanged. -/
theorem bitrot_shard_file_size_amended (S B : Nat) (algo : HashAlgorithm) (_hB : 0 < B) :
    (algo = .SHA256 →
      bitrot_shard_file_size S B algo = (S + B - 1) / B * (algo.size + B)) ∧
    (algo ≠ .SHA256 → bitrot_shard_file_size S B algo = S) := by
  constructor
  · intro h
    subst h
    simp [bitrot_shard_file_size]
  · intro h
    simp [bitrot_shard_file_size, h]

theorem bitrot_shard_file_size_amended_witness :
    bitrot_shard_file_size 22 8 .SHA256 = 120 ∧ bitrot_shard_file_size 22 8 .Md5 = 22 := by
  have h := bitrot_shard_file_size_amended 22 8 .SHA256 (by decide)
  have h2 := bitrot_shard_file_size_amended 22 8 .Md5 (by decide)
  refine ⟨?_, ?_⟩
  · rw [h.1 rfl]
    decide
  · rw [h2.2 (by decide)]

/-! ## C8 -/

/-- C8: for every `BitrotWriter` and hash primitive, a write of a
non-empty block shorter than the shard size is accepted (returning its
length) and transitions the writer to finished; every subsequent non-empty
write on a finished writer fails with the writer-already-finished error;
and no successful write accepts more than `shard_size` bytes. -/
theorem bitrot_writer_contract (hash_encode : List Nat → List Nat) (w : BitrotWriter)
    (buf : List Nat) :
    (w.finished = false → buf ≠ [] → buf.length < w.shard_size →
      ∃ w', BitrotWriter.write hash_encode w buf = .ok (buf.length, w') ∧
        w'.finished = true) ∧
    (w.finished = true → buf ≠ [] →
      BitrotWriter.write hash_encode w buf = .error .writerAlreadyFinished) ∧
    (∀ n w', BitrotWriter.write hash_encode w buf = .ok (n, w') → n ≤ w.shard_size) := by
  refine ⟨?_, ?_, ?_⟩
  · intro hf hne hlt
    have hw : BitrotWriter.write hash_encode w buf =
        .ok (buf.length,
          { w with
            finished := true
            inner := w.inner ++ (if w.hash_algo.size > 0 then hash_encode buf else []) ++ buf }) := by
      rw [BitrotWriter.write]
      rw [if_neg hne, if_neg (by rw [hf]; exact Bool.false_ne_true)]
      rw [if_neg (by omega)]
      rw [if_pos hlt]
    exact ⟨_, hw, rfl⟩
  · intro hf hne
    simp [BitrotWriter.write, hne, hf]
  · intro n w' h
    by_cases hne : buf = []
    · subst hne
      simp [BitrotWriter.write] at h
      omega
    · by_cases hfin : w.finished = true
      · simp [BitrotWriter.write, hne, hfin] at h
      · by_cases hgt : buf.length > w.shard_size
        · simp [BitrotWriter.write, hne, hfin, hgt] at h
        · simp [BitrotWriter.write, hne, hfin, hgt] at h
          omega

theorem bitrot_writer_contract_witness :
    ∃ w', BitrotWriter.write (fun _ => [0]) bwC8 [7] = .ok (1, w') ∧ w'.finished = true :=
  (bitrot_writer_contract (fun _ => [0]) bwC8 [7]).1 rfl (by decide) (by decide)

/-! ## C9 -/

/-- C9: `is_xl2_v1_format` is a total boolean predicate — on every input
buffer it equals the decidable test "at least 8 bytes, the `XL2 ` magic,
and a major version of at most 1", and in particular never raises (the
model catches exactly the `check_xl2_v1` error paths). -/
theorem is_xl2_v1_format_characterization (buf : List Nat) :
    FileMeta.is_xl2_v1_format buf =
      decide (8 ≤ buf.length ∧ buf.take 4 = XL_FILE_HEADER ∧
        le16 (buf.getD 4 0) (buf.getD 5 0) ≤ XL_FILE_VERSION_MAJOR) := by
  rw [FileMeta.is_xl2_v1_format, FileMeta.check_xl2_v1]
  by_cases h1 : buf.length < 8
  · rw [if_pos h1]
    have hn : ¬ (8 ≤ buf.length) := by omega
    simp [hn]
  · rw [if_neg h1]
    by_cases h2 : buf.take 4 ≠ XL_FILE_HEADER
    · rw [if_pos h2]
      simp [h2]
    · rw [if_neg h2]
      by_cases h3 : XL_FILE_VERSION_MAJOR < le16 (buf.getD 4 0) (buf.getD 5 0)
      · rw [if_pos h3]
        have hn : ¬ (le16 (buf.getD 4 0) (buf.getD 5 0) ≤ XL_FILE_VERSION_MAJOR) := by omega
        simp
        intro _ _
        simpa [List.getD] using h3
      · rw [if_neg h3]
        have c1 : 8 ≤ buf.length := by omega
        have c2 : buf.take 4 = XL_FILE_HEADER := not_not.mp h2
        have c3 : le16 (buf.getD 4 0) (buf.getD 5 0) ≤ XL_FILE_VERSION_MAJOR := by omega
        simp [c1, c2, c3]
        simpa [List.getD] using c3

/-! ## C10 -/

/-- C10: for every buffer that loads as a `FileMeta` with zero versions,
`get_file_info` does not fail: it returns a synthetic `FileInfo` with
`deleted = true`, `is_latest = true` and mod-time one second after the
epoch, instead of a `FileNotFound` error. -/
theorem get_file_info_zero_versions (buf volume path : List Nat) (vid : Option Nat)
    (read_data : Bool) (fm : FileMeta) (hload : FileMeta.load buf = .ok fm)
    (hempty : fm.versions = []) :
    get_file_info buf volume path vid read_data =
      .ok { volume, name := path, version_id := vid, is_latest := true, deleted := true,
            mod_time := some 1000000000 } := by
  rw [get_file_info, hload]
  simp [exceptBind_ok, hempty]

theorem get_file_info_zero_versions_witness :
    get_file_info bufC10 (strB "bkt") (strB "k") none false =
      .ok { volume := strB "bkt", name := strB "k", version_id := none, is_latest := true,
            deleted := true, mod_time := some 1000000000 } :=
  get_file_info_zero_versions bufC10 (strB "bkt") (strB "k") none false
    { versions := [], data := [], meta_ver := 2 } (by decide) rfl


end Mojofs
